import Mathlib

/-!
# roadcrew: capture / upload / stats pipeline

A shallow embedding of `src/roadcrew.go`.  Calls that leave the program (the
file system, the host name, the object store, the capture process, timers and
channels) are resolved by an explicit environment record, and every function
returns the sequence of effects it performs together with the way it ends.
`log.Fatal` ends the whole process, so a run that reaches it performs no
further effect.  `log.Println` / `log.Printf` lines carry no behaviour the
development depends on and are left out of the effect sequences.
-/

namespace Roadcrew

/-! ## Constants and options -/

/-- Constant `MB` of roadcrew.go. -/
def MB : Nat := 1024 * 1024

/-- The struct `roadcrewOptions`; the credentials and the region are
values of the storage library, kept as strings, and `timeout` is the
duration in clock ticks. -/
structure roadcrewOptions where
  auth : String × String
  region : String
  interval : String
  timeout : Nat
  bucketName : String
  tmpDir : String
  deriving DecidableEq, Repr

/-! ## Path helpers used by `upload` -/

/-- The characters of a path with its trailing slashes removed. -/
def stripTrailingSlashes (cs : List Char) : List Char :=
  (cs.reverse.dropWhile (fun c => c == '/')).reverse

/-- The characters after the last slash (all of them when there is none). -/
def afterLastSlash (cs : List Char) : List Char :=
  (cs.reverse.takeWhile (fun c => c != '/')).reverse

/-- Modelled from the spec: the base name of a local path, the function
`path.Base` of the Go standard library that `upload` calls and that is not
part of src/.  It is the final slash-separated element of the path: trailing
slashes are removed first, the empty path gives "." and a path made of
slashes only gives "/". -/
def pathBaseChars (cs : List Char) : List Char :=
  if cs = [] then ['.']
  else
    let b := afterLastSlash (stripTrailingSlashes cs)
    if b = [] then ['/'] else b

/-- String form of `pathBaseChars`. -/
def pathBase (p : String) : String := String.mk (pathBaseChars p.data)

/-- Modelled from the spec: the file extension of a path, the function
`path.Ext` of the Go standard library (not part of src/): the suffix that
starts at the last dot of the final slash-separated element, empty when that
element has no dot. -/
def pathExtChars (cs : List Char) : List Char :=
  let t := afterLastSlash cs
  if t.contains '.' then '.' :: (t.reverse.takeWhile (fun c => c != '.')).reverse else []

/-- String form of `pathExtChars`. -/
def pathExt (p : String) : String := String.mk (pathExtChars p.data)

/-! ## The uploader -/

/-- Access policy of the object store; only `s3.Private` is used. -/
inductive Acl where
  | privateAcl
  deriving DecidableEq, Repr

/-- One uploaded part of a multi-part session: its number and its size. -/
structure Part where
  n : Nat
  size : Nat
  deriving DecidableEq, Repr

/-- Effects of `upload`, in program order. -/
inductive UEvent where
  | openFile (path : String)
  | stat
  | hostnameLookup
  | putReader (key : String) (length : Nat) (contType : String) (acl : Acl)
  | multi (key : String) (contType : String) (acl : Acl)
  | putAll (partSize : Nat)
  | putPart (n : Nat) (size : Nat)
  | complete (parts : List Part)
  | remove (path : String)
  | send (msg : String)
  deriving DecidableEq, Repr

/-- How a function of the program ends. -/
inductive Ending where
  | returned
  | fatal
  deriving DecidableEq, Repr

/-- Results of the calls `upload` makes outside the program. -/
structure UploadEnv where
  /-- `os.Open(local)` succeeds. -/
  openOk : Bool
  /-- `localf.Stat()`: the size in bytes (a non-negative `int64`), `none` on
  error. -/
  statSize : Option Nat
  /-- `os.Hostname()`, `none` on error. -/
  hostname : Option String
  /-- `mime.TypeByExtension`. -/
  typeByExtension : String → String
  /-- `bucket.PutReader` returns no error. -/
  putReaderOk : Bool
  /-- `bucket.Multi` returns no error. -/
  multiOk : Bool
  /-- The upload of part number `n` returns no error. -/
  partOk : Nat → Bool
  /-- `multi.Complete` returns no error. -/
  completeOk : Bool
  /-- `os.Remove(local)` returns no error. -/
  removeOk : Bool

/-- Modelled from the spec: the part sizes of a chunked transfer, which the
storage library computes inside `multi.PutAll` (imported, not part of src/):
the stream is split into parts of exactly `partSize` bytes, the last part may
be smaller.  The first argument bounds the number of parts. -/
def splitSizes (partSize : Nat) : Nat → Nat → List Nat
  | 0, _ => []
  | fuel + 1, remaining =>
    if remaining = 0 then []
    else if remaining ≤ partSize then [remaining]
    else partSize :: splitSizes partSize fuel (remaining - partSize)

/-- Modelled from the spec: the part uploads of `multi.PutAll` (imported, not
part of src/): the parts are uploaded in order, numbered from `n`, each upload
yields a part token, and the first failing upload ends the call with an
error. -/
def putParts (partOk : Nat → Bool) : Nat → List Nat → List UEvent × Option (List Part)
  | _, [] => ([], some [])
  | n, sz :: rest =>
    if partOk n then
      match putParts partOk (n + 1) rest with
      | (evs, some ps) => (UEvent.putPart n sz :: evs, some (⟨n, sz⟩ :: ps))
      | (evs, none) => (UEvent.putPart n sz :: evs, none)
    else ([UEvent.putPart n sz], none)

/-- Modelled from the spec: `multi.PutAll(reader, partSize)` of the storage
library (imported, not part of src/) on a stream of `total` bytes: split the
stream, upload all parts, return the ordered part tokens. -/
def putAll (partOk : Nat → Bool) (partSize total : Nat) : List UEvent × Option (List Part) :=
  let r := putParts partOk 1 (splitSizes partSize total total)
  (UEvent.putAll partSize :: r.1, r.2)

/-- The content type `upload` derives from the extension of the local path. -/
def contentType (e : UploadEnv) (loc : String) : String :=
  let contType := e.typeByExtension (pathExt loc)
  if contType = "" then "binary/octet-stream" else contType

/-- The remote key `upload` computes. -/
def remoteKey (hostname loc : String) : String :=
  hostname ++ "/" ++ pathBase loc

/-- The function `upload` of roadcrew.go: the effects it performs and how it
ends (`fatal` is `log.Fatal`).  The reader handed to `PutReader` and `PutAll`
is the opened file, whose length is the size `Stat` returned.  The deferred
`Close` and the log lines are not part of the effect sequence. -/
def upload (e : UploadEnv) (loc : String) : List UEvent × Ending :=
  if e.openOk = false then ([UEvent.openFile loc], Ending.fatal)
  else
    match e.statSize with
    | none => ([UEvent.openFile loc, UEvent.stat], Ending.fatal)
    | some size =>
      match e.hostname with
      | none => ([UEvent.openFile loc, UEvent.stat, UEvent.hostnameLookup], Ending.fatal)
      | some hostname =>
        let remote := remoteKey hostname loc
        let acl := Acl.privateAcl
        let contType := contentType e loc
        let pre := [UEvent.openFile loc, UEvent.stat, UEvent.hostnameLookup]
        if size ≤ 5 * MB then
          if e.putReaderOk = false then
            (pre ++ [UEvent.putReader remote size contType acl], Ending.fatal)
          else if e.removeOk = false then
            (pre ++ [UEvent.putReader remote size contType acl, UEvent.remove loc],
              Ending.fatal)
          else
            (pre ++ [UEvent.putReader remote size contType acl, UEvent.remove loc,
              UEvent.send "upload done"], Ending.returned)
        else
          if e.multiOk = false then
            (pre ++ [UEvent.multi remote contType acl], Ending.fatal)
          else
            match putAll e.partOk (5 * MB) size with
            | (evs, none) => (pre ++ [UEvent.multi remote contType acl] ++ evs, Ending.fatal)
            | (evs, some parts) =>
              if e.completeOk = false then
                (pre ++ [UEvent.multi remote contType acl] ++ evs ++
                  [UEvent.complete parts], Ending.fatal)
              else if e.removeOk = false then
                (pre ++ [UEvent.multi remote contType acl] ++ evs ++
                  [UEvent.complete parts, UEvent.remove loc], Ending.fatal)
              else
                (pre ++ [UEvent.multi remote contType acl] ++ evs ++
                  [UEvent.complete parts, UEvent.remove loc, UEvent.send "upload done"],
                  Ending.returned)

/-- An environment in which every call succeeds, for a file of `size` bytes on
host "web1". -/
def okEnv (size : Nat) : UploadEnv where
  openOk := true
  statSize := some size
  hostname := some "web1"
  typeByExtension := fun _ => ""
  putReaderOk := true
  multiOk := true
  partOk := fun _ => true
  completeOk := true
  removeOk := true

/-! ## Reading effect sequences -/

/-- Every element satisfying `q` comes after an element satisfying `p`. -/
def precededBy {α : Type} (p q : α → Bool) : List α → Bool
  | [] => true
  | x :: xs => if q x then false else if p x then true else precededBy p q xs

/-- The single-request put. -/
def isPutReader : UEvent → Bool
  | UEvent.putReader _ _ _ _ => true
  | _ => false

/-- The start of a multi-part session. -/
def isMulti : UEvent → Bool
  | UEvent.multi _ _ _ => true
  | _ => false

/-- The call of `PutAll`. -/
def isPutAll : UEvent → Bool
  | UEvent.putAll _ => true
  | _ => false

/-- The upload of one part. -/
def isPutPart : UEvent → Bool
  | UEvent.putPart _ _ => true
  | _ => false

/-- The commit of a multi-part session. -/
def isComplete : UEvent → Bool
  | UEvent.complete _ => true
  | _ => false

/-- The removal of a local file. -/
def isRemove : UEvent → Bool
  | UEvent.remove _ => true
  | _ => false

/-- A completion signal on the upload channel. -/
def isSend : UEvent → Bool
  | UEvent.send _ => true
  | _ => false

/-- Any call of the multi-part interface. -/
def isMultiPartCall (ev : UEvent) : Bool :=
  isMulti ev || isPutAll ev || isPutPart ev || isComplete ev

/-- Any call to the object store. -/
def isStorageCall (ev : UEvent) : Bool :=
  isPutReader ev || isMultiPartCall ev

/-- The parts uploaded in an effect sequence, in upload order. -/
def uploadedParts (t : List UEvent) : List Part :=
  t.filterMap (fun ev => match ev with
    | UEvent.putPart n size => some ⟨n, size⟩
    | _ => none)

/-- The part lists of the commit calls of an effect sequence. -/
def committed (t : List UEvent) : List (List Part) :=
  t.filterMap (fun ev => match ev with
    | UEvent.complete parts => some parts
    | _ => none)

/-- The sizes `sizes`, numbered consecutively from `n`. -/
def numberFrom : Nat → List Nat → List Part
  | _, [] => []
  | n, sz :: rest => ⟨n, sz⟩ :: numberFrom (n + 1) rest

/-- The object keys named in the calls to the object store. -/
def objectKeys (t : List UEvent) : List String :=
  t.filterMap (fun ev => match ev with
    | UEvent.putReader key _ _ _ => some key
    | UEvent.multi key _ _ => some key
    | _ => none)

/-- An environment in which the upload of part 3 fails and every other call
succeeds, for a file of `size` bytes on host "web1". -/
def thirdPartFails (size : Nat) : UploadEnv where
  openOk := true
  statSize := some size
  hostname := some "web1"
  typeByExtension := fun _ => ""
  putReaderOk := true
  multiOk := true
  partOk := fun k => k != 3
  completeOk := true
  removeOk := true

/-- The call `PutAll` made by `upload` returns no error. -/
def putAllOk (e : UploadEnv) (size : Nat) : Bool :=
  (putAll e.partOk (5 * MB) size).2.isSome

/-! ## The capture supervisor -/

/-- Effects of `runSysdig`, in program order. -/
inductive SEvent where
  | tempFile (dir : String) (pfx : String)
  | start (args : List String)
  | spawnWait
  | timerStart (d : Nat)
  | timerFired (d : Nat)
  | recvDone (err : Bool)
  | signalInterrupt
  | emit (name : String)
  deriving DecidableEq, Repr

/-- How a run of `runSysdig` ends: the path is sent on `sysdigreturn`, the
process is ended by `log.Fatal`, or the task stays blocked in `<-done`. -/
inductive SEnding where
  | emitted
  | fatal
  | blocked
  deriving DecidableEq, Repr

/-- Results of the calls `runSysdig` makes outside the program. -/
structure SysdigEnv where
  /-- `ioutil.TempFile(dir, pfx)`: the name of the created file, `none` on
  error. -/
  tempFile : String → String → Option String
  /-- `cmd.Start()` returns no error. -/
  startOk : Bool
  /-- The `select`: `some err` when the result of `cmd.Wait()` arrives on
  `done` first (`err = true` for an error), `none` when the timer fires
  first. -/
  exitsFirst : Option Bool
  /-- `cmd.Process.Signal(os.Interrupt)` returns no error. -/
  signalOk : Bool
  /-- After the signal: `some err` when the process exits and the result of
  `cmd.Wait()` arrives on `done`, `none` when the process never exits. -/
  exitAfterSignal : Option Bool

/-- The function `runSysdig` of roadcrew.go. -/
def runSysdig (env : SysdigEnv) (opts : roadcrewOptions) : List SEvent × SEnding :=
  match env.tempFile opts.tmpDir "rc_sysdig_" with
  | none => ([SEvent.tempFile opts.tmpDir "rc_sysdig_"], SEnding.fatal)
  | some tracefile =>
    if env.startOk = false then
      ([SEvent.tempFile opts.tmpDir "rc_sysdig_", SEvent.start ["sysdig", "-qw", tracefile]],
        SEnding.fatal)
    else
      let pre := [SEvent.tempFile opts.tmpDir "rc_sysdig_",
        SEvent.start ["sysdig", "-qw", tracefile], SEvent.spawnWait,
        SEvent.timerStart opts.timeout]
      match env.exitsFirst with
      | some err =>
        if err = true then (pre ++ [SEvent.recvDone err], SEnding.fatal)
        else (pre ++ [SEvent.recvDone err, SEvent.emit tracefile], SEnding.emitted)
      | none =>
        if env.signalOk = false then
          (pre ++ [SEvent.timerFired opts.timeout, SEvent.signalInterrupt], SEnding.fatal)
        else
          match env.exitAfterSignal with
          | none =>
            (pre ++ [SEvent.timerFired opts.timeout, SEvent.signalInterrupt], SEnding.blocked)
          | some err =>
            (pre ++ [SEvent.timerFired opts.timeout, SEvent.signalInterrupt,
              SEvent.recvDone err, SEvent.emit tracefile], SEnding.emitted)

/-- The exit of the capture process is observed. -/
def isRecvDone : SEvent → Bool
  | SEvent.recvDone _ => true
  | _ => false

/-- The artifact path is sent. -/
def isEmit : SEvent → Bool
  | SEvent.emit _ => true
  | _ => false

/-- The interrupt signal is sent. -/
def isSignal : SEvent → Bool
  | SEvent.signalInterrupt => true
  | _ => false

/-- The timer of duration `d` fires. -/
def isTimerFired (d : Nat) : SEvent → Bool
  | SEvent.timerFired d1 => d1 == d
  | _ => false

/-- Options with a deadline of 30 ticks and the default directory. -/
def sampleOpts : roadcrewOptions where
  auth := ("", "")
  region := "us-east-1"
  interval := "30"
  timeout := 30
  bucketName := "traces"
  tmpDir := "/tmp"

/-- The capture process ignores the interrupt and never exits. -/
def hangEnv : SysdigEnv where
  tempFile := fun dir pfx => some (dir ++ "/" ++ pfx ++ "1")
  startOk := true
  exitsFirst := none
  signalOk := true
  exitAfterSignal := none

/-- The capture process runs until the deadline and exits on the interrupt
with a non-zero status. -/
def deadlineEnv : SysdigEnv where
  tempFile := fun dir pfx => some (dir ++ "/" ++ pfx ++ "1")
  startOk := true
  exitsFirst := none
  signalOk := true
  exitAfterSignal := some true

/-- The capture process exits on its own, without error, before the
deadline. -/
def earlyExitEnv : SysdigEnv where
  tempFile := fun dir pfx => some (dir ++ "/" ++ pfx ++ "1")
  startOk := true
  exitsFirst := some false
  signalOk := true
  exitAfterSignal := none

/-! ## The handler of a finished trace file -/

/-- The case of the `select` in `handleTraceFile` that fires. -/
inductive HSelect where
  | uploadDone
  | statsDone
  | timeout
  deriving DecidableEq, Repr

/-- The local variables `uploadFinished` and `statsFinished`. -/
structure HState where
  uploadFinished : Bool
  statsFinished : Bool
  deriving DecidableEq, Repr

/-- How `handleTraceFile` ends; `waiting` is a loop that has not ended within
the events or the steps considered. -/
inductive HEnding where
  | returned
  | fatal
  | waiting
  deriving DecidableEq, Repr

/-- The body of the `select`: the new values of the flags, `none` for
`log.Fatal`. -/
def selectBody (st : HState) : HSelect → Option HState
  | HSelect.uploadDone => some { st with uploadFinished := true }
  | HSelect.statsDone => some { st with statsFinished := true }
  | HSelect.timeout => none

/-- The loop `for uploadFinished==false || statsFinished==false` of
`handleTraceFile`, run on the sequence of `select` cases that fire. -/
def handleLoop : List HSelect → HState → HEnding × HState
  | [], st =>
    if st.uploadFinished == false || st.statsFinished == false then (HEnding.waiting, st)
    else (HEnding.returned, st)
  | ev :: rest, st =>
    if st.uploadFinished == false || st.statsFinished == false then
      match selectBody st ev with
      | none => (HEnding.fatal, st)
      | some st1 => handleLoop rest st1
    else (HEnding.returned, st)

/-- The function `handleTraceFile` of roadcrew.go, on the sequence of `select`
cases that fire. -/
def handleTraceFile (evs : List HSelect) : HEnding × HState :=
  handleLoop evs { uploadFinished := false, statsFinished := false }

/-- The states the loop of `handleTraceFile` goes through, the first one
included. -/
def handleStates : List HSelect → HState → List HState
  | [], st => [st]
  | ev :: rest, st =>
    if st.uploadFinished == false || st.statsFinished == false then
      match selectBody st ev with
      | none => [st]
      | some st1 => st :: handleStates rest st1
    else [st]

/-- The timer created on entering a `select` at time `t0` fires before a
signal that is ready at time `t`; `timerWinsTie` decides when both are ready
at the same time. -/
def timerBeats (T t0 t : Nat) (timerWinsTie : Bool) : Bool :=
  t0 + T < t || (t0 + T == t && timerWinsTie)

/-- In a `select` entered at time `t0` the upload signal is ready before the
stats signal; `uploadWinsTie` decides when both are ready at the same time. -/
def uploadBeatsStats (u s t0 : Nat) (uploadWinsTie : Bool) : Bool :=
  max u t0 < max s t0 || (max u t0 == max s t0 && uploadWinsTie)

/-- The case of the `select` that fires, and when, for a `select` entered at
time `t0`: the upload signal is offered from time `u` on and the stats signal
from time `s` on (each until it is received), the timer created by
`time.After(T)` on entering the `select` fires at `t0 + T`.  The earliest case
wins; `timerWinsTie` and `uploadWinsTie` decide between cases that are ready
at the same time. -/
def nextSelect (T u s : Nat) (timerWinsTie uploadWinsTie : Bool) (t0 : Nat) (st : HState) :
    HSelect × Nat :=
  if st.uploadFinished == false && st.statsFinished == false then
    if uploadBeatsStats u s t0 uploadWinsTie then
      if timerBeats T t0 (max u t0) timerWinsTie then (HSelect.timeout, t0 + T)
      else (HSelect.uploadDone, max u t0)
    else
      if timerBeats T t0 (max s t0) timerWinsTie then (HSelect.timeout, t0 + T)
      else (HSelect.statsDone, max s t0)
  else if st.uploadFinished == false then
    if timerBeats T t0 (max u t0) timerWinsTie then (HSelect.timeout, t0 + T)
    else (HSelect.uploadDone, max u t0)
  else if st.statsFinished == false then
    if timerBeats T t0 (max s t0) timerWinsTie then (HSelect.timeout, t0 + T)
    else (HSelect.statsDone, max s t0)
  else (HSelect.timeout, t0 + T)

/-- The loop of `handleTraceFile` on a time line: the deadline is `T`, the
upload signal is sent at time `u` and the stats signal at time `s` after
dispatch.  Returns how the loop ends and when.  The first argument bounds the
number of iterations. -/
def handleTimedLoop (T u s : Nat) (timerWinsTie uploadWinsTie : Bool) :
    Nat → Nat → HState → HEnding × Nat
  | 0, t0, _ => (HEnding.waiting, t0)
  | fuel + 1, t0, st =>
    if st.uploadFinished == false || st.statsFinished == false then
      match selectBody st (nextSelect T u s timerWinsTie uploadWinsTie t0 st).1 with
      | none => (HEnding.fatal, (nextSelect T u s timerWinsTie uploadWinsTie t0 st).2)
      | some st1 =>
        handleTimedLoop T u s timerWinsTie uploadWinsTie fuel
          (nextSelect T u s timerWinsTie uploadWinsTie t0 st).2 st1
    else (HEnding.returned, t0)

/-- The function `handleTraceFile` on a time line that starts at dispatch. -/
def handleTraceFileTimed (T u s : Nat) (timerWinsTie uploadWinsTie : Bool) : HEnding × Nat :=
  handleTimedLoop T u s timerWinsTie uploadWinsTie 3 0
    { uploadFinished := false, statsFinished := false }

/-! ## The coordinator -/

/-- Where the main task stands: before the first `go runSysdig`, at the
receive on `sysdigreturn`, before `go runSysdig` in the loop body, before
`go handleTraceFile` in the loop body. -/
inductive MainPc where
  | boot
  | receiving
  | launching
  | dispatching
  deriving DecidableEq, Repr

/-- The tasks of the pipeline as `main` creates them: `openCaptures` counts the
`runSysdig` tasks that have not yet sent their path, `handlers` the
`handleTraceFile` tasks that have not yet returned; the other fields count what
has happened so far. -/
structure Coord where
  pc : MainPc
  openCaptures : Nat
  handlers : Nat
  capturesStarted : Nat
  handlersStarted : Nat
  received : Nat
  deriving DecidableEq, Repr

/-- The steps of the pipeline that change the set of tasks. -/
inductive CStep where
  /-- `go runSysdig(sysdigreturn, opts)` before the loop. -/
  | goFirstCapture
  /-- `filename := <-sysdigreturn`: the send of a capture task meets the
  receive of `main`. -/
  | receive
  /-- `go runSysdig(sysdigreturn, opts)` in the loop body. -/
  | goCapture
  /-- `go handleTraceFile(filename, opts)` in the loop body. -/
  | goHandler
  /-- A `handleTraceFile` task returns. -/
  | handlerEnds
  deriving DecidableEq, Repr

/-- The state in which `main` starts. -/
def mainInit : Coord where
  pc := MainPc.boot
  openCaptures := 0
  handlers := 0
  capturesStarted := 0
  handlersStarted := 0
  received := 0

/-- One step of the pipeline, `none` when the step cannot be taken. -/
def mainStep (c : Coord) : CStep → Option Coord
  | CStep.goFirstCapture =>
    if c.pc = MainPc.boot then
      some { c with pc := MainPc.receiving, openCaptures := c.openCaptures + 1,
                    capturesStarted := c.capturesStarted + 1 }
    else none
  | CStep.receive =>
    if c.pc = MainPc.receiving ∧ 1 ≤ c.openCaptures then
      some { c with pc := MainPc.launching, openCaptures := c.openCaptures - 1,
                    received := c.received + 1 }
    else none
  | CStep.goCapture =>
    if c.pc = MainPc.launching then
      some { c with pc := MainPc.dispatching, openCaptures := c.openCaptures + 1,
                    capturesStarted := c.capturesStarted + 1 }
    else none
  | CStep.goHandler =>
    if c.pc = MainPc.dispatching then
      some { c with pc := MainPc.receiving, handlers := c.handlers + 1,
                    handlersStarted := c.handlersStarted + 1 }
    else none
  | CStep.handlerEnds =>
    if 1 ≤ c.handlers then some { c with handlers := c.handlers - 1 } else none

/-- A sequence of steps, `none` when one of them cannot be taken. -/
def mainRun : Coord → List CStep → Option Coord
  | c, [] => some c
  | c, st :: rest =>
    match mainStep c st with
    | none => none
    | some c1 => mainRun c1 rest

/-- The steps of `k` turns of the loop of `main` during which no handler
returns. -/
def loopTurns : Nat → List CStep
  | 0 => []
  | k + 1 => CStep.receive :: CStep.goCapture :: CStep.goHandler :: loopTurns k

/-! ## The options -/

/-- A command line of roadcrew, by the options of its usage text. -/
structure CommandLine where
  keyId : Option String
  secretKey : Option String
  region : Option String
  tmpDir : Option String
  interval : String
  bucketName : String

/-- Modelled from the spec: the argument map that `docopt.Parse` (imported,
not part of src/; the spec leaves command-line parsing to this collaborator)
builds from the usage text of roadcrew.go.  Every option and positional
argument of the usage text is stored under the name the usage text gives it:
`-K`, `-S`, `-r` (default `us-east-1`), `-t`, `<interval>`, `<bucket_name>`.
A name that is not in the usage text has no entry; `none` stands for a missing
entry and for `nil`. -/
def docoptParse (cl : CommandLine) (key : String) : Option String :=
  if key = "-K" then cl.keyId
  else if key = "-S" then cl.secretKey
  else if key = "-r" then some (cl.region.getD "us-east-1")
  else if key = "-t" then cl.tmpDir
  else if key = "<interval>" then some cl.interval
  else if key = "<bucket_name>" then some cl.bucketName
  else none

/-- Results of the calls `setupOptions` and `checkDependencies` make outside
the program. -/
structure SetupEnv where
  /-- `time.ParseDuration`, in clock ticks, `none` on error. -/
  parseDuration : String → Option Nat
  /-- The table `aws.Regions`. -/
  regions : String → Option String
  /-- `aws.EnvAuth()`, `none` on error. -/
  envAuth : Option (String × String)
  /-- `exec.LookPath("sysdig")` returns no error. -/
  sysdigInPath : Bool
  /-- `os.Stat(dir)` returns no error. -/
  statOk : String → Bool
  /-- `os.Geteuid()`. -/
  euid : Nat
  /-- `bucket.List` returns no error. -/
  bucketListOk : Bool

/-- How `setupOptions` ends: with options and no error, with an error, in
`log.Fatal`, or in a failed type assertion. -/
inductive SetupResult where
  | ok (opts : roadcrewOptions)
  | error
  | fatal
  | panicked
  deriving DecidableEq, Repr

/-- The function `checkDependencies` of roadcrew.go: `true` for a `nil`
error. -/
def checkDependencies (env : SetupEnv) (opts : roadcrewOptions) : Bool :=
  if env.sysdigInPath = false then false
  else if env.statOk opts.tmpDir = false then false
  else if env.euid ≠ 0 then false
  else if env.bucketListOk = false then false
  else true

/-- The function `setupOptions` of roadcrew.go, on the result of
`docopt.Parse` (`none` for a parse error). -/
def setupOptions (env : SetupEnv) (parsed : Option (String → Option String)) : SetupResult :=
  match parsed with
  | none => SetupResult.error
  | some arguments =>
    match arguments "<interval>" with
    | none => SetupResult.panicked
    | some interval =>
      match env.parseDuration (interval ++ "s") with
      | none => SetupResult.fatal
      | some timeout =>
        match arguments "<bucket_name>" with
        | none => SetupResult.panicked
        | some bucketName =>
          let tmpDir :=
            match arguments "--tmp_dir" with
            | none => "/tmp"
            | some dir => dir
          match arguments "-r" with
          | none => SetupResult.panicked
          | some r =>
            match env.regions r with
            | none => SetupResult.fatal
            | some region =>
              let auth : Option (String × String) :=
                match env.envAuth with
                | some a => some a
                | none =>
                  match arguments "-K", arguments "-S" with
                  | some k, some sk => some (k, sk)
                  | _, _ => none
              match auth with
              | none => SetupResult.error
              | some a =>
                let opts : roadcrewOptions :=
                  { auth := a, region := region, interval := interval, timeout := timeout,
                    bucketName := bucketName, tmpDir := tmpDir }
                if checkDependencies env opts = true then SetupResult.ok opts
                else SetupResult.error

/-- The command line `roadcrew -t /var/tmp -i 60 -b traces`. -/
def cmdWithTmpDir : CommandLine where
  keyId := none
  secretKey := none
  region := none
  tmpDir := some "/var/tmp"
  interval := "60"
  bucketName := "traces"

/-- A host on which every check of `setupOptions` passes. -/
def goodSetupEnv : SetupEnv where
  parseDuration := fun d => if d = "60s" then some 60 else none
  regions := fun r => if r = "us-east-1" then some "us-east-1" else none
  envAuth := some ("AAAA", "BBBB")
  sysdigInPath := true
  statOk := fun _ => true
  euid := 0
  bucketListOk := true

/-- What holds in every state of the pipeline: the counts that go with each
position of `main`. -/
def CoordInv (c : Coord) : Prop :=
  c.handlers ≤ c.handlersStarted ∧
  match c.pc with
  | MainPc.boot =>
    c.openCaptures = 0 ∧ c.capturesStarted = 0 ∧ c.handlersStarted = 0 ∧ c.received = 0
  | MainPc.receiving =>
    c.openCaptures = 1 ∧ c.capturesStarted = c.received + 1 ∧ c.handlersStarted = c.received
  | MainPc.launching =>
    c.openCaptures = 0 ∧ c.capturesStarted = c.received ∧ c.handlersStarted + 1 = c.received
  | MainPc.dispatching =>
    c.openCaptures = 1 ∧ c.capturesStarted = c.received + 1 ∧
      c.handlersStarted + 1 = c.received

/-! # Theorems -/

/-! ## Effect sequences -/

theorem precededBy_append_of_neither {α : Type} (p q : α → Bool) (l1 l2 : List α)
    (h : ∀ x ∈ l1, p x = false ∧ q x = false) :
    precededBy p q (l1 ++ l2) = precededBy p q l2 := by
  induction l1 with
  | nil => rfl
  | cons x xs ih =>
    have hx := h x (List.mem_cons_self _ _)
    have hxs : ∀ y ∈ xs, p y = false ∧ q y = false :=
      fun y hy => h y (List.mem_cons_of_mem _ hy)
    simp [precededBy, hx.1, hx.2, ih hxs]

/-- Meaning of `precededBy`: in every split of the sequence at an element
satisfying `q`, the part before it holds an element satisfying `p`. -/
theorem precededBy_iff {α : Type} (p q : α → Bool) (l : List α) :
    precededBy p q l = true ↔
      ∀ l1 x l2, l = l1 ++ x :: l2 → q x = true → ∃ y ∈ l1, p y = true := by
  induction l with
  | nil =>
    simp [precededBy]
  | cons a as ih =>
    constructor
    · intro h l1 x l2 hl hq
      cases l1 with
      | nil =>
        simp at hl
        obtain ⟨rfl, _⟩ := hl
        simp [precededBy, hq] at h
      | cons b bs =>
        simp at hl
        obtain ⟨rfl, rfl⟩ := hl
        by_cases hqa : q a = true
        · simp [precededBy, hqa] at h
        · by_cases hpa : p a = true
          · exact ⟨a, List.mem_cons_self _ _, hpa⟩
          · simp [precededBy, hqa, hpa] at h
            obtain ⟨y, hy, hpy⟩ := (ih.mp h) bs x l2 rfl hq
            exact ⟨y, List.mem_cons_of_mem _ hy, hpy⟩
    · intro h
      by_cases hqa : q a = true
      · obtain ⟨y, hy, _⟩ := h [] a as rfl hqa
        simp at hy
      · by_cases hpa : p a = true
        · simp [precededBy, hqa, hpa]
        · simp [precededBy, hqa, hpa]
          apply ih.mpr
          intro l1 x l2 hl hq
          obtain ⟨y, hy, hpy⟩ := h (a :: l1) x l2 (by simp [hl]) hq
          simp at hy
          rcases hy with rfl | hy
          · exact absurd hpy hpa
          · exact ⟨y, hy, hpy⟩

/-! ## Splitting a stream into parts -/

theorem splitSizes_sum (p : Nat) (hp : 0 < p) :
    ∀ fuel remaining, remaining ≤ fuel → (splitSizes p fuel remaining).sum = remaining := by
  intro fuel
  induction fuel with
  | zero => intro r hr; simp [splitSizes]; omega
  | succ f ih =>
    intro r hr
    unfold splitSizes
    by_cases h0 : r = 0
    · simp [h0]
    · by_cases h1 : r ≤ p
      · simp [h0, h1]
      · simp [h0, h1, ih (r - p) (by omega)]; omega

theorem splitSizes_length (p : Nat) (hp : 0 < p) :
    ∀ fuel remaining, remaining ≤ fuel →
      (splitSizes p fuel remaining).length = (remaining + p - 1) / p := by
  intro fuel
  induction fuel with
  | zero =>
    intro r hr
    have : r = 0 := by omega
    subst this
    simp [splitSizes]
    rw [Nat.div_eq_of_lt (by omega)]
  | succ f ih =>
    intro r hr
    unfold splitSizes
    by_cases h0 : r = 0
    · subst h0
      simp
      rw [Nat.div_eq_of_lt (by omega)]
    · by_cases h1 : r ≤ p
      · simp [h0, h1]
        have h2 : r + p - 1 = (r - 1) + 1 * p := by omega
        rw [h2, Nat.add_mul_div_right _ _ hp, Nat.div_eq_of_lt (by omega)]
      · simp [h0, h1, ih (r - p) (by omega)]
        have h2 : r + p - 1 = (r - p + p - 1) + 1 * p := by omega
        rw [h2, Nat.add_mul_div_right _ _ hp]

theorem splitSizes_dropLast (p : Nat) (hp : 0 < p) :
    ∀ fuel remaining, remaining ≤ fuel →
      ∀ s ∈ (splitSizes p fuel remaining).dropLast, s = p := by
  intro fuel
  induction fuel with
  | zero => intro r _ s hs; simp [splitSizes] at hs
  | succ f ih =>
    intro r hr s hs
    unfold splitSizes at hs
    by_cases h0 : r = 0
    · simp [h0] at hs
    · by_cases h1 : r ≤ p
      · simp [h0, h1] at hs
      · simp only [h0, h1, if_false] at hs
        have hne : splitSizes p f (r - p) ≠ [] := by
          intro hnil
          have := splitSizes_sum p hp f (r - p) (by omega)
          rw [hnil] at this
          simp at this
          omega
        rw [List.dropLast_cons_of_ne_nil hne] at hs
        simp at hs
        rcases hs with rfl | hs
        · rfl
        · exact ih (r - p) (by omega) s hs

theorem splitSizes_getLast (p : Nat) (hp : 0 < p) :
    ∀ fuel remaining, remaining ≤ fuel → 0 < remaining →
      ∃ last, (splitSizes p fuel remaining).getLast? = some last ∧ 1 ≤ last ∧ last ≤ p := by
  intro fuel
  induction fuel with
  | zero => intro r hr h0; omega
  | succ f ih =>
    intro r hr hpos
    unfold splitSizes
    by_cases h1 : r ≤ p
    · exact ⟨r, by simp [Nat.ne_of_gt hpos, h1], hpos, h1⟩
    · obtain ⟨last, hl, hb⟩ := ih (r - p) (by omega) (by omega)
      refine ⟨last, ?_, hb⟩
      simp only [Nat.ne_of_gt hpos, h1, if_false]
      rw [List.getLast?_cons, hl]
      rfl

/-! ## The part uploads of a chunked transfer -/

theorem putParts_events (ok : Nat → Bool) :
    ∀ (l : List Nat) (n : Nat), ∀ ev ∈ (putParts ok n l).1, isPutPart ev = true := by
  intro l
  induction l with
  | nil => intro n ev hev; simp [putParts] at hev
  | cons sz rest ih =>
    intro n ev hev
    unfold putParts at hev
    by_cases hok : ok n = true
    · have ih1 := ih (n + 1)
      rcases hr : putParts ok (n + 1) rest with ⟨evs, r⟩
      rw [hr] at ih1
      cases r <;> simp [hok, hr] at hev <;> rcases hev with rfl | hev
      · rfl
      · exact ih1 ev hev
      · rfl
      · exact ih1 ev hev
    · simp [hok] at hev
      subst hev
      rfl

theorem putParts_some (ok : Nat → Bool) :
    ∀ (l : List Nat) (n : Nat) (ps : List Part), (putParts ok n l).2 = some ps →
      ps = numberFrom n l ∧
      (putParts ok n l).1 = (numberFrom n l).map (fun p => UEvent.putPart p.n p.size) := by
  intro l
  induction l with
  | nil => intro n ps h; simp [putParts] at h; simp [putParts, numberFrom, h]
  | cons sz rest ih =>
    intro n ps h
    unfold putParts at h ⊢
    by_cases hok : ok n = true
    · have ih1 := ih (n + 1)
      rcases hr : putParts ok (n + 1) rest with ⟨evs, r⟩
      rw [hr] at ih1
      cases r with
      | none => simp [hok, hr] at h
      | some qs =>
        simp [hok, hr] at h
        obtain ⟨h1, h2⟩ := ih1 qs rfl
        simp at h2
        simp [hok, numberFrom, ← h, h1, h2]
    · simp [hok] at h

theorem putParts_none_iff (ok : Nat → Bool) :
    ∀ (l : List Nat) (n : Nat),
      (putParts ok n l).2 = none ↔ ∃ i, i < l.length ∧ ok (n + i) = false := by
  intro l
  induction l with
  | nil => intro n; simp [putParts]
  | cons sz rest ih =>
    intro n
    unfold putParts
    by_cases hok : ok n = true
    · have ih1 := ih (n + 1)
      rcases hr : putParts ok (n + 1) rest with ⟨evs, r⟩
      rw [hr] at ih1
      have hiff : (∃ i, i < (sz :: rest).length ∧ ok (n + i) = false) ↔
          ∃ i, i < rest.length ∧ ok (n + 1 + i) = false := by
        constructor
        · rintro ⟨i, hi, hf⟩
          cases i with
          | zero => simp [hok] at hf
          | succ j =>
            refine ⟨j, by simpa using hi, ?_⟩
            rw [← hf]; congr 1; omega
        · rintro ⟨j, hj, hf⟩
          refine ⟨j + 1, by simpa using hj, ?_⟩
          rw [← hf]; congr 1; omega
      rw [hiff, ← ih1]
      cases r <;> simp [hok]
    · simp [hok]
      exact ⟨0, by simp, by simpa using hok⟩

theorem uploadedParts_map_putPart (ps : List Part) :
    uploadedParts (ps.map (fun p => UEvent.putPart p.n p.size)) = ps := by
  induction ps with
  | nil => rfl
  | cons p ps ih =>
    simp only [uploadedParts, List.map_cons, List.filterMap_cons] at ih ⊢
    rw [ih]

theorem numberFrom_sizes : ∀ (l : List Nat) (n : Nat), (numberFrom n l).map Part.size = l := by
  intro l
  induction l with
  | nil => intro n; rfl
  | cons sz rest ih => intro n; simp [numberFrom, ih]

theorem numberFrom_numbers :
    ∀ (l : List Nat) (n : Nat), (numberFrom n l).map Part.n = List.range' n l.length := by
  intro l
  induction l with
  | nil => intro n; rfl
  | cons sz rest ih => intro n; simp [numberFrom, ih, List.range'_succ]

/-! ## The uploader -/

theorem five_MB : 5 * MB = 5242880 := by decide

theorem putAll_events (ok : Nat → Bool) (p total : Nat) :
    ∀ ev ∈ (putAll ok p total).1, isPutAll ev = true ∨ isPutPart ev = true := by
  intro ev hev
  simp only [putAll, List.mem_cons] at hev
  rcases hev with rfl | hev
  · exact Or.inl rfl
  · exact Or.inr (putParts_events ok _ _ ev hev)

theorem filter_putAll_events (ok : Nat → Bool) (p total : Nat) (f : UEvent → Bool)
    (h1 : ∀ k, f (UEvent.putAll k) = false) (h2 : ∀ k s, f (UEvent.putPart k s) = false) :
    (putAll ok p total).1.filter f = [] := by
  rw [List.filter_eq_nil_iff]
  intro ev hev
  rcases putAll_events ok p total ev hev with h | h
  · cases ev <;> simp_all [isPutAll]
  · cases ev <;> simp_all [isPutPart]

theorem filter_isPutAll_putAll (ok : Nat → Bool) (p total : Nat) :
    (putAll ok p total).1.filter isPutAll = [UEvent.putAll p] := by
  simp only [putAll, List.filter_cons, isPutAll, if_true]
  congr 1
  rw [List.filter_eq_nil_iff]
  intro ev hev
  have := putParts_events ok _ _ ev hev
  cases ev <;> simp_all [isPutPart, isPutAll]

/-- The effects of `upload` on the single-request path. -/
theorem upload_single (e : UploadEnv) (loc host : String) (n : Nat)
    (hopen : e.openOk = true) (hstat : e.statSize = some n) (hhost : e.hostname = some host)
    (hn : n ≤ 5242880) :
    upload e loc =
      if e.putReaderOk = false then
        ([UEvent.openFile loc, UEvent.stat, UEvent.hostnameLookup,
          UEvent.putReader (remoteKey host loc) n (contentType e loc) Acl.privateAcl],
          Ending.fatal)
      else if e.removeOk = false then
        ([UEvent.openFile loc, UEvent.stat, UEvent.hostnameLookup,
          UEvent.putReader (remoteKey host loc) n (contentType e loc) Acl.privateAcl,
          UEvent.remove loc], Ending.fatal)
      else
        ([UEvent.openFile loc, UEvent.stat, UEvent.hostnameLookup,
          UEvent.putReader (remoteKey host loc) n (contentType e loc) Acl.privateAcl,
          UEvent.remove loc, UEvent.send "upload done"], Ending.returned) := by
  have hn' : n ≤ 5 * MB := by rw [five_MB]; exact hn
  simp [upload, hopen, hstat, hhost, hn']

/-- The effects of `upload` on the multi-part path when the session cannot be
started. -/
theorem upload_multi_refused (e : UploadEnv) (loc host : String) (n : Nat)
    (hopen : e.openOk = true) (hstat : e.statSize = some n) (hhost : e.hostname = some host)
    (hn : 5242880 < n) (hm : e.multiOk = false) :
    upload e loc =
      ([UEvent.openFile loc, UEvent.stat, UEvent.hostnameLookup,
        UEvent.multi (remoteKey host loc) (contentType e loc) Acl.privateAcl],
        Ending.fatal) := by
  have hn' : ¬ n ≤ 5 * MB := by rw [five_MB]; omega
  simp [upload, hopen, hstat, hhost, hn', hm]

/-- The effects of `upload` on the multi-part path when a part upload
fails. -/
theorem upload_multi_part_failed (e : UploadEnv) (loc host : String) (n : Nat)
    (hopen : e.openOk = true) (hstat : e.statSize = some n) (hhost : e.hostname = some host)
    (hn : 5242880 < n) (hm : e.multiOk = true) (hp : putAllOk e n = false) :
    upload e loc =
      ([UEvent.openFile loc, UEvent.stat, UEvent.hostnameLookup,
        UEvent.multi (remoteKey host loc) (contentType e loc) Acl.privateAcl] ++
        (putAll e.partOk (5 * MB) n).1, Ending.fatal) := by
  have hn' : ¬ n ≤ 5 * MB := by rw [five_MB]; omega
  unfold putAllOk at hp
  rcases hr : putAll e.partOk (5 * MB) n with ⟨evs, r⟩
  rw [hr] at hp
  cases r with
  | some ps => simp at hp
  | none => simp [upload, hopen, hstat, hhost, hn', hm, hr]

/-- The effects of `upload` on the multi-part path when all parts are
uploaded. -/
theorem upload_multi_parts_done (e : UploadEnv) (loc host : String) (n : Nat)
    (hopen : e.openOk = true) (hstat : e.statSize = some n) (hhost : e.hostname = some host)
    (hn : 5242880 < n) (hm : e.multiOk = true) (hp : putAllOk e n = true) :
    ∃ parts, (putAll e.partOk (5 * MB) n).2 = some parts ∧
    upload e loc =
      ([UEvent.openFile loc, UEvent.stat, UEvent.hostnameLookup,
        UEvent.multi (remoteKey host loc) (contentType e loc) Acl.privateAcl] ++
        (putAll e.partOk (5 * MB) n).1 ++
        (if e.completeOk = false then [UEvent.complete parts]
         else if e.removeOk = false then [UEvent.complete parts, UEvent.remove loc]
         else [UEvent.complete parts, UEvent.remove loc, UEvent.send "upload done"]),
       if e.completeOk = false then Ending.fatal
       else if e.removeOk = false then Ending.fatal else Ending.returned) := by
  have hn' : ¬ n ≤ 5 * MB := by rw [five_MB]; omega
  unfold putAllOk at hp
  rcases hr : putAll e.partOk (5 * MB) n with ⟨evs, r⟩
  rw [hr] at hp
  cases r with
  | none => simp at hp
  | some ps =>
    refine ⟨ps, rfl, ?_⟩
    cases hc : e.completeOk <;> cases hrm : e.removeOk <;>
      simp [upload, hopen, hstat, hhost, hn', hm, hr, hc, hrm]

theorem putAllOk_false_iff (e : UploadEnv) (n : Nat) :
    putAllOk e n = false ↔
      ∃ k, 1 ≤ k ∧ k ≤ (splitSizes 5242880 n n).length ∧ e.partOk k = false := by
  unfold putAllOk putAll
  rw [five_MB]
  have hiff : (putParts e.partOk 1 (splitSizes 5242880 n n)).2.isSome = false ↔
      (putParts e.partOk 1 (splitSizes 5242880 n n)).2 = none := by
    cases (putParts e.partOk 1 (splitSizes 5242880 n n)).2 <;> simp
  show (putParts e.partOk 1 (splitSizes 5242880 n n)).2.isSome = false ↔ _
  rw [hiff, putParts_none_iff]
  constructor
  · rintro ⟨i, hi, hf⟩
    exact ⟨1 + i, by omega, by omega, hf⟩
  · rintro ⟨k, h1, h2, hf⟩
    refine ⟨k - 1, by omega, ?_⟩
    rw [← hf]; congr 1; omega

theorem putAll_neither (ok : Nat → Bool) (p total : Nat) (f : UEvent → Bool)
    (h1 : ∀ k, f (UEvent.putAll k) = false) (h2 : ∀ k s, f (UEvent.putPart k s) = false) :
    ∀ ev ∈ (putAll ok p total).1, f ev = false := by
  intro ev hev
  rcases putAll_events ok p total ev hev with h | h
  · cases ev <;> simp_all [isPutAll]
  · cases ev <;> simp_all [isPutPart]

/-- C1: the transfer strategy of `upload` is chosen from the size `n` alone.
Once the file is opened, its size `n` read and the host name known: for
`n ≤ 5242880` (the boundary included) the only call to the object store is one
`PutReader` with declared length `n`, so no multi-part call is made; for
`n > 5242880` no `PutReader` is made, exactly one multi-part session is
started, then (the session having started) `PutAll` is called once with part
size 5242880, and (the parts having been uploaded) exactly one commit is
issued. -/
theorem upload_strategy_by_size (e : UploadEnv) (loc host : String) (n : Nat)
    (hopen : e.openOk = true) (hstat : e.statSize = some n)
    (hhost : e.hostname = some host) :
    (n ≤ 5242880 →
      (upload e loc).1.filter isStorageCall =
        [UEvent.putReader (remoteKey host loc) n (contentType e loc) Acl.privateAcl]) ∧
    (5242880 < n →
      (upload e loc).1.filter isPutReader = [] ∧
      (upload e loc).1.filter isMulti =
        [UEvent.multi (remoteKey host loc) (contentType e loc) Acl.privateAcl] ∧
      (e.multiOk = true → (upload e loc).1.filter isPutAll = [UEvent.putAll 5242880]) ∧
      (e.multiOk = true → putAllOk e n = true →
        ∃ parts, (upload e loc).1.filter isComplete = [UEvent.complete parts])) := by
  constructor
  · intro hn
    rw [upload_single e loc host n hopen hstat hhost hn]
    cases e.putReaderOk <;> cases e.removeOk <;>
      simp [isStorageCall, isPutReader, isMultiPartCall, isMulti, isPutAll, isPutPart,
        isComplete]
  · intro hn
    have hA1 := filter_putAll_events e.partOk (5 * MB) n isPutReader
      (fun _ => rfl) (fun _ _ => rfl)
    have hA2 := filter_putAll_events e.partOk (5 * MB) n isMulti
      (fun _ => rfl) (fun _ _ => rfl)
    have hA3 := filter_putAll_events e.partOk (5 * MB) n isComplete
      (fun _ => rfl) (fun _ _ => rfl)
    have hA4 := filter_isPutAll_putAll e.partOk (5 * MB) n
    rw [five_MB] at hA1 hA2 hA3 hA4
    cases hm : e.multiOk with
    | false =>
      rw [upload_multi_refused e loc host n hopen hstat hhost hn hm]
      simp [isPutReader, isMulti]
    | true =>
      cases hp : putAllOk e n with
      | false =>
        rw [upload_multi_part_failed e loc host n hopen hstat hhost hn hm hp, five_MB]
        simp [isPutReader, isMulti, isPutAll, hA1, hA2, hA4]
      | true =>
        obtain ⟨parts, _, hu⟩ := upload_multi_parts_done e loc host n hopen hstat hhost hn hm hp
        rw [hu, five_MB]
        cases e.completeOk <;> cases e.removeOk <;>
          simp [isPutReader, isMulti, isPutAll, isComplete, hA1, hA2, hA3, hA4]

/-- C1, at the boundary size 5242880 and at 5242881 in an environment where
every call succeeds. -/
theorem upload_strategy_by_size_witness :
    ((okEnv 5242880).openOk = true ∧ (okEnv 5242880).statSize = some 5242880 ∧
      (okEnv 5242880).hostname = some "web1" ∧ 5242880 ≤ 5242880 ∧
      (upload (okEnv 5242880) "/tmp/rc_sysdig_1").1.filter isStorageCall =
        [UEvent.putReader (remoteKey "web1" "/tmp/rc_sysdig_1") 5242880
          (contentType (okEnv 5242880) "/tmp/rc_sysdig_1") Acl.privateAcl]) ∧
    (5242880 < 5242881 ∧ (okEnv 5242881).multiOk = true ∧
      putAllOk (okEnv 5242881) 5242881 = true ∧
      (upload (okEnv 5242881) "/tmp/rc_sysdig_1").1.filter isPutReader = [] ∧
      (upload (okEnv 5242881) "/tmp/rc_sysdig_1").1.filter isPutAll =
        [UEvent.putAll 5242880] ∧
      ∃ parts, (upload (okEnv 5242881) "/tmp/rc_sysdig_1").1.filter isComplete =
        [UEvent.complete parts]) :=
  ⟨⟨rfl, rfl, rfl, by decide,
      (upload_strategy_by_size (okEnv 5242880) "/tmp/rc_sysdig_1" "web1" 5242880
        rfl rfl rfl).1 (by decide)⟩,
    ⟨by decide, rfl, by decide,
      ((upload_strategy_by_size (okEnv 5242881) "/tmp/rc_sysdig_1" "web1" 5242881
        rfl rfl rfl).2 (by decide)).1,
      ((upload_strategy_by_size (okEnv 5242881) "/tmp/rc_sysdig_1" "web1" 5242881
        rfl rfl rfl).2 (by decide)).2.2.1 rfl,
      ((upload_strategy_by_size (okEnv 5242881) "/tmp/rc_sysdig_1" "web1" 5242881
        rfl rfl rfl).2 (by decide)).2.2.2 rfl (by decide)⟩⟩

theorem any_false_of_forall {α : Type} (f : α → Bool) (l : List α)
    (h : ∀ x ∈ l, f x = false) : l.any f = false := by
  rw [List.any_eq_false]
  intro x hx
  simp [h x hx]

/-- C2: `upload` removes the local file only after the remote transfer was
acknowledged.  Every removal in the effect sequence comes after the
single-request put or the commit; a removal happens only when the file was
opened, its size read, the host name found and the put returned no error
(size at most 5242880) or session start, all part uploads and the commit
returned no error (larger size); and when open, stat, host name lookup, put,
session start, a part upload or the commit fails, the run performs no removal,
sends no completion signal and ends in `log.Fatal`. -/
theorem upload_remove_only_after_ack (e : UploadEnv) (loc : String) :
    precededBy (fun ev => isPutReader ev || isComplete ev) isRemove (upload e loc).1 = true ∧
    ((upload e loc).1.any isRemove = true →
      e.openOk = true ∧ e.hostname.isSome = true ∧ ∃ n, e.statSize = some n ∧
        ((n ≤ 5242880 ∧ e.putReaderOk = true) ∨
         (5242880 < n ∧ e.multiOk = true ∧ putAllOk e n = true ∧ e.completeOk = true))) ∧
    ((e.openOk = false ∨ e.statSize = none ∨ e.hostname = none ∨
      (∃ n, e.statSize = some n ∧ n ≤ 5242880 ∧ e.putReaderOk = false) ∨
      (∃ n, e.statSize = some n ∧ 5242880 < n ∧
        (e.multiOk = false ∨
         (∃ k, 1 ≤ k ∧ k ≤ (splitSizes 5242880 n n).length ∧ e.partOk k = false) ∨
         e.completeOk = false))) →
      (upload e loc).1.any isRemove = false ∧ (upload e loc).1.any isSend = false ∧
        (upload e loc).2 = Ending.fatal) := by
  cases hopen : e.openOk with
  | false => simp [upload, hopen, precededBy, isRemove, isSend, isPutReader, isComplete]
  | true =>
    cases hstat : e.statSize with
    | none => simp [upload, hopen, hstat, precededBy, isRemove, isSend, isPutReader, isComplete]
    | some n =>
      cases hhost : e.hostname with
      | none =>
        simp [upload, hopen, hstat, hhost, precededBy, isRemove, isSend, isPutReader,
          isComplete]
      | some host =>
        by_cases hn : n ≤ 5242880
        · have hn2 : ¬ 5242880 < n := by omega
          rw [upload_single e loc host n hopen hstat hhost hn]
          cases hput : e.putReaderOk <;> cases hrm : e.removeOk <;>
            simp [precededBy, isRemove, isSend, isPutReader, isComplete, hn, hn2]
        · have hn2 : 5242880 < n := by omega
          cases hm : e.multiOk with
          | false =>
            rw [upload_multi_refused e loc host n hopen hstat hhost hn2 hm]
            simp [precededBy, isRemove, isSend, isPutReader, isComplete, hn, hn2]
          | true =>
            have hB1 := putAll_neither e.partOk (5 * MB) n isRemove
              (fun _ => rfl) (fun _ _ => rfl)
            have hB2 := putAll_neither e.partOk (5 * MB) n isSend
              (fun _ => rfl) (fun _ _ => rfl)
            have hB3 := putAll_neither e.partOk (5 * MB) n
              (fun ev => isPutReader ev || isComplete ev) (fun _ => rfl) (fun _ _ => rfl)
            have hpre : ∀ x ∈ [UEvent.openFile loc, UEvent.stat, UEvent.hostnameLookup,
                UEvent.multi (remoteKey host loc) (contentType e loc) Acl.privateAcl] ++
                (putAll e.partOk (5 * MB) n).1,
                (fun ev => isPutReader ev || isComplete ev) x = false ∧ isRemove x = false := by
              intro x hx
              rw [List.mem_append] at hx
              rcases hx with hx | hx
              · simp at hx
                rcases hx with rfl | rfl | rfl | rfl <;> simp [isPutReader, isComplete, isRemove]
              · exact ⟨hB3 x hx, hB1 x hx⟩
            cases hp : putAllOk e n with
            | false =>
              have hk := (putAllOk_false_iff e n).mp hp
              rw [upload_multi_part_failed e loc host n hopen hstat hhost hn2 hm hp]
              refine ⟨?_, ?_, ?_⟩
              · have := precededBy_append_of_neither
                  (fun ev => isPutReader ev || isComplete ev) isRemove _ [] hpre
                rw [List.append_nil] at this
                rw [this]
                rfl
              · intro h
                rw [List.any_append, any_false_of_forall _ _ hB1] at h
                simp [isRemove] at h
              · intro _
                refine ⟨?_, ?_, rfl⟩
                · show List.any (_ ++ _) _ = false
                  rw [List.any_append, any_false_of_forall _ _ hB1]
                  simp [isRemove]
                · show List.any (_ ++ _) _ = false
                  rw [List.any_append, any_false_of_forall _ _ hB2]
                  simp [isSend]
            | true =>
              have hk : ¬ ∃ k, 1 ≤ k ∧ k ≤ (splitSizes 5242880 n n).length ∧
                  e.partOk k = false := by
                intro h
                have := (putAllOk_false_iff e n).mpr h
                rw [hp] at this
                exact Bool.noConfusion this
              obtain ⟨parts, _, hu⟩ :=
                upload_multi_parts_done e loc host n hopen hstat hhost hn2 hm hp
              rw [hu]
              refine ⟨?_, ?_, ?_⟩
              · show precededBy _ _ (_ ++ _) = true
                rw [precededBy_append_of_neither _ _ _ _ hpre]
                cases e.completeOk <;> cases e.removeOk <;>
                  simp [precededBy, isRemove, isPutReader, isComplete]
              · intro h
                simp only [List.any_append, any_false_of_forall _ _ hB1] at h
                cases hc : e.completeOk <;> cases hr : e.removeOk <;>
                  simp [hc, hr, isRemove, hn2, hp] at h ⊢
              · intro h
                have hc : e.completeOk = false := by
                  rcases h with h | h | h | ⟨m, h1, h2, _⟩ | ⟨m, h1, _, h3⟩
                  · simp at h
                  · simp at h
                  · simp at h
                  · simp at h1; omega
                  · simp at h1
                    subst h1
                    rcases h3 with h3 | h3 | h3
                    · simp at h3
                    · exact absurd h3 hk
                    · exact h3
                simp only [List.any_append, any_false_of_forall _ _ hB1,
                  any_false_of_forall _ _ hB2, hc]
                simp [isRemove, isSend]

/-- C2, on a 4 MiB file uploaded without error (the removal follows the
acknowledged put) and on a 12 MiB file whose third part upload fails (no
removal, no completion signal). -/
theorem upload_remove_only_after_ack_witness :
    ((upload (okEnv 4194304) "/tmp/rc_sysdig_1").1.any isRemove = true ∧
      (okEnv 4194304).putReaderOk = true ∧
      precededBy (fun ev => isPutReader ev || isComplete ev) isRemove
        (upload (okEnv 4194304) "/tmp/rc_sysdig_1").1 = true) ∧
    ((∃ k, 1 ≤ k ∧ k ≤ (splitSizes 5242880 12582912 12582912).length ∧
        (thirdPartFails 12582912).partOk k = false) ∧
      uploadedParts (upload (thirdPartFails 12582912) "/tmp/rc_sysdig_1").1 =
        [⟨1, 5242880⟩, ⟨2, 5242880⟩, ⟨3, 2097152⟩] ∧
      (upload (thirdPartFails 12582912) "/tmp/rc_sysdig_1").1.any isRemove = false ∧
      (upload (thirdPartFails 12582912) "/tmp/rc_sysdig_1").1.any isSend = false ∧
      (upload (thirdPartFails 12582912) "/tmp/rc_sysdig_1").2 = Ending.fatal) :=
  ⟨⟨by decide,
      ((upload_remove_only_after_ack (okEnv 4194304) "/tmp/rc_sysdig_1").2.1
        (by decide)).2.2.elim
        (fun n hn => hn.2.elim (fun h => h.2) (fun h => absurd (Option.some.inj hn.1 ▸ h.1)
          (by decide))),
      (upload_remove_only_after_ack (okEnv 4194304) "/tmp/rc_sysdig_1").1⟩,
    ⟨⟨3, by decide, by decide, by decide⟩, by decide,
      (upload_remove_only_after_ack (thirdPartFails 12582912) "/tmp/rc_sysdig_1").2.2
        (Or.inr (Or.inr (Or.inr (Or.inr
          ⟨12582912, rfl, by decide, Or.inr (Or.inl ⟨3, by decide, by decide, by decide⟩)⟩))))⟩⟩

/-! ## Parts of a chunked transfer -/

theorem uploadedParts_append (a b : List UEvent) :
    uploadedParts (a ++ b) = uploadedParts a ++ uploadedParts b := by
  simp [uploadedParts, List.filterMap_append]

theorem committed_append (a b : List UEvent) :
    committed (a ++ b) = committed a ++ committed b := by
  simp [committed, List.filterMap_append]

theorem committed_map_putPart (ps : List Part) :
    committed (ps.map (fun p => UEvent.putPart p.n p.size)) = [] := by
  induction ps with
  | nil => rfl
  | cons p ps ih =>
    simp only [committed, List.map_cons, List.filterMap_cons] at ih ⊢
    rw [ih]

theorem filter_parts_map_putPart (ps : List Part) :
    (ps.map (fun p => UEvent.putPart p.n p.size)).filter
        (fun ev => isPutPart ev || isComplete ev) =
      ps.map (fun p => UEvent.putPart p.n p.size) := by
  rw [List.filter_eq_self]
  intro ev hev
  simp only [List.mem_map] at hev
  obtain ⟨p, _, rfl⟩ := hev
  rfl

/-- The effects of `upload` on the multi-part path when all parts are
uploaded, with the parts spelled out. -/
theorem upload_multi_parts (e : UploadEnv) (loc host : String) (n : Nat)
    (hopen : e.openOk = true) (hstat : e.statSize = some n)
    (hhost : e.hostname = some host) (hn : 5242880 < n) (hm : e.multiOk = true)
    (hp : putAllOk e n = true) :
    (upload e loc).1 =
      [UEvent.openFile loc, UEvent.stat, UEvent.hostnameLookup,
        UEvent.multi (remoteKey host loc) (contentType e loc) Acl.privateAcl,
        UEvent.putAll 5242880] ++
      (numberFrom 1 (splitSizes 5242880 n n)).map (fun p => UEvent.putPart p.n p.size) ++
      (if e.completeOk = false then
        [UEvent.complete (numberFrom 1 (splitSizes 5242880 n n))]
       else if e.removeOk = false then
        [UEvent.complete (numberFrom 1 (splitSizes 5242880 n n)), UEvent.remove loc]
       else
        [UEvent.complete (numberFrom 1 (splitSizes 5242880 n n)), UEvent.remove loc,
          UEvent.send "upload done"]) := by
  obtain ⟨parts, hparts, hu⟩ := upload_multi_parts_done e loc host n hopen hstat hhost hn hm hp
  rw [hu]
  rw [five_MB] at hparts ⊢
  have h2 : (putParts e.partOk 1 (splitSizes 5242880 n n)).2 = some parts := hparts
  obtain ⟨h3, h4⟩ := putParts_some e.partOk _ _ _ h2
  have h5 : (putAll e.partOk 5242880 n).1 = UEvent.putAll 5242880 ::
      (numberFrom 1 (splitSizes 5242880 n n)).map (fun p => UEvent.putPart p.n p.size) := by
    show UEvent.putAll 5242880 :: (putParts e.partOk 1 (splitSizes 5242880 n n)).1 = _
    rw [h4]
  rw [h5, h3]
  simp

/-- C3: for a size `n > 5242880` (file opened, size read, host name found,
session started, all part uploads accepted) the chunked transfer uploads
`ceil(n / 5242880)` parts whose sizes sum to `n`; every part but the last has
5242880 bytes and the last has between 1 and 5242880 bytes; the parts are
numbered 1, 2, ... in upload order; the part uploads are followed by exactly
one commit, which references exactly those parts in that order.  For
`n = 12582912` the parts are 5242880, 5242880 and 2097152 bytes. -/
theorem upload_chunked_parts (e : UploadEnv) (loc host : String) (n : Nat)
    (hopen : e.openOk = true) (hstat : e.statSize = some n)
    (hhost : e.hostname = some host) (hn : 5242880 < n) (hm : e.multiOk = true)
    (hp : putAllOk e n = true) :
    (uploadedParts (upload e loc).1).length = (n + 5242880 - 1) / 5242880 ∧
    ((uploadedParts (upload e loc).1).map Part.size).sum = n ∧
    (∀ s ∈ ((uploadedParts (upload e loc).1).map Part.size).dropLast, s = 5242880) ∧
    (∃ last, ((uploadedParts (upload e loc).1).map Part.size).getLast? = some last ∧
      1 ≤ last ∧ last ≤ 5242880) ∧
    (uploadedParts (upload e loc).1).map Part.n =
      List.range' 1 (uploadedParts (upload e loc).1).length ∧
    (upload e loc).1.filter (fun ev => isPutPart ev || isComplete ev) =
      (uploadedParts (upload e loc).1).map (fun p => UEvent.putPart p.n p.size) ++
        [UEvent.complete (uploadedParts (upload e loc).1)] ∧
    committed (upload e loc).1 = [uploadedParts (upload e loc).1] ∧
    (n = 12582912 → uploadedParts (upload e loc).1 =
      [⟨1, 5242880⟩, ⟨2, 5242880⟩, ⟨3, 2097152⟩]) := by
  have hu := upload_multi_parts e loc host n hopen hstat hhost hn hm hp
  have hparts : uploadedParts (upload e loc).1 = numberFrom 1 (splitSizes 5242880 n n) := by
    rw [hu, uploadedParts_append, uploadedParts_append, uploadedParts_map_putPart]
    cases e.completeOk <;> cases e.removeOk <;> simp [uploadedParts]
  have hcommit : committed (upload e loc).1 = [numberFrom 1 (splitSizes 5242880 n n)] := by
    rw [hu, committed_append, committed_append, committed_map_putPart]
    cases e.completeOk <;> cases e.removeOk <;> simp [committed]
  have hfilter : (upload e loc).1.filter (fun ev => isPutPart ev || isComplete ev) =
      (numberFrom 1 (splitSizes 5242880 n n)).map (fun p => UEvent.putPart p.n p.size) ++
        [UEvent.complete (numberFrom 1 (splitSizes 5242880 n n))] := by
    rw [hu, List.filter_append, List.filter_append, filter_parts_map_putPart]
    cases e.completeOk <;> cases e.removeOk <;> simp [isPutPart, isComplete]
  have hlen : (numberFrom 1 (splitSizes 5242880 n n)).length =
      (splitSizes 5242880 n n).length := by
    rw [← List.length_map (numberFrom 1 (splitSizes 5242880 n n)) Part.size, numberFrom_sizes]
  rw [hparts, hcommit, hfilter, numberFrom_sizes, numberFrom_numbers, hlen]
  refine ⟨splitSizes_length 5242880 (by decide) n n (Nat.le_refl n),
    splitSizes_sum 5242880 (by decide) n n (Nat.le_refl n),
    splitSizes_dropLast 5242880 (by decide) n n (Nat.le_refl n),
    splitSizes_getLast 5242880 (by decide) n n (Nat.le_refl n) (by omega),
    rfl, rfl, rfl, ?_⟩
  intro h12
  subst h12
  decide

/-- C3, on a 12 MiB file: three parts of 5 MiB, 5 MiB and 2 MiB, then one
commit of those three parts. -/
theorem upload_chunked_parts_witness :
    (okEnv 12582912).openOk = true ∧ (okEnv 12582912).statSize = some 12582912 ∧
    (okEnv 12582912).hostname = some "web1" ∧ 5242880 < 12582912 ∧
    (okEnv 12582912).multiOk = true ∧ putAllOk (okEnv 12582912) 12582912 = true ∧
    uploadedParts (upload (okEnv 12582912) "/tmp/rc_sysdig_1").1 =
      [⟨1, 5242880⟩, ⟨2, 5242880⟩, ⟨3, 2097152⟩] ∧
    committed (upload (okEnv 12582912) "/tmp/rc_sysdig_1").1 =
      [uploadedParts (upload (okEnv 12582912) "/tmp/rc_sysdig_1").1] ∧
    ((uploadedParts (upload (okEnv 12582912) "/tmp/rc_sysdig_1").1).map Part.size).sum =
      12582912 :=
  ⟨rfl, rfl, rfl, by decide, rfl, by decide,
    (upload_chunked_parts (okEnv 12582912) "/tmp/rc_sysdig_1" "web1" 12582912 rfl rfl rfl
      (by decide) rfl (by decide)).2.2.2.2.2.2.2 rfl,
    (upload_chunked_parts (okEnv 12582912) "/tmp/rc_sysdig_1" "web1" 12582912 rfl rfl rfl
      (by decide) rfl (by decide)).2.2.2.2.2.2.1,
    (upload_chunked_parts (okEnv 12582912) "/tmp/rc_sysdig_1" "web1" 12582912 rfl rfl rfl
      (by decide) rfl (by decide)).2.1⟩

/-! ## The remote key -/

theorem pathBaseChars_dir_name (dir name : List Char) (hne : name ≠ [])
    (hslash : '/' ∉ name) : pathBaseChars (dir ++ '/' :: name) = name := by
  have hrev : (dir ++ '/' :: name).reverse = name.reverse ++ '/' :: dir.reverse := by simp
  have hall : ∀ c ∈ name.reverse, (fun c => c != '/') c = true := by
    intro c hc
    rw [List.mem_reverse] at hc
    have : c ≠ '/' := fun h => hslash (h ▸ hc)
    simpa using this
  have hstrip : stripTrailingSlashes (dir ++ '/' :: name) = dir ++ '/' :: name := by
    unfold stripTrailingSlashes
    rw [hrev]
    obtain ⟨c, cs, hcs⟩ := List.exists_cons_of_ne_nil
      (show name.reverse ≠ [] by simpa using hne)
    have hc : c ≠ '/' := by
      have := hall c (by rw [hcs]; exact List.mem_cons_self _ _)
      simpa using this
    rw [hcs, List.cons_append, List.dropWhile_cons_of_neg (by simpa using hc)]
    rw [← List.cons_append, ← hcs, ← hrev, List.reverse_reverse]
  have hlast : afterLastSlash (dir ++ '/' :: name) = name := by
    unfold afterLastSlash
    rw [hrev, List.takeWhile_append_of_pos hall]
    simp
  unfold pathBaseChars
  rw [hstrip, hlast]
  simp [hne]

theorem pathBase_dir_name (dir name : String) (hne : name ≠ "")
    (hslash : '/' ∉ name.data) : pathBase (dir ++ "/" ++ name) = name := by
  have hne2 : name.data ≠ [] := by
    intro h
    apply hne
    exact String.ext h
  have hdata : (dir ++ "/" ++ name).data = dir.data ++ '/' :: name.data := by
    simp [String.data_append]
  unfold pathBase
  rw [hdata, pathBaseChars_dir_name dir.data name.data hne2 hslash]

theorem objectKeys_append (a b : List UEvent) :
    objectKeys (a ++ b) = objectKeys a ++ objectKeys b := by
  simp [objectKeys, List.filterMap_append]

theorem objectKeys_map_putPart (ps : List Part) :
    objectKeys (ps.map (fun p => UEvent.putPart p.n p.size)) = [] := by
  induction ps with
  | nil => rfl
  | cons p ps ih =>
    simp only [objectKeys, List.map_cons, List.filterMap_cons] at ih ⊢
    rw [ih]

theorem objectKeys_putAll (ok : Nat → Bool) (p total : Nat) :
    objectKeys (putAll ok p total).1 = [] := by
  unfold objectKeys
  rw [List.filterMap_eq_nil_iff]
  intro ev hev
  rcases putAll_events ok p total ev hev with h | h
  · cases ev <;> simp_all [isPutAll]
  · cases ev <;> simp_all [isPutPart]

/-- The object named by the storage calls of `upload` is `remoteKey`. -/
theorem objectKeys_upload (e : UploadEnv) (loc host : String) (n : Nat)
    (hopen : e.openOk = true) (hstat : e.statSize = some n)
    (hhost : e.hostname = some host) :
    objectKeys (upload e loc).1 = [remoteKey host loc] := by
  by_cases hn : n ≤ 5242880
  · rw [upload_single e loc host n hopen hstat hhost hn]
    cases e.putReaderOk <;> cases e.removeOk <;> simp [objectKeys]
  · have hn2 : 5242880 < n := by omega
    cases hm : e.multiOk with
    | false =>
      rw [upload_multi_refused e loc host n hopen hstat hhost hn2 hm]
      simp [objectKeys]
    | true =>
      cases hp : putAllOk e n with
      | false =>
        rw [upload_multi_part_failed e loc host n hopen hstat hhost hn2 hm hp,
          objectKeys_append, objectKeys_putAll]
        simp [objectKeys]
      | true =>
        obtain ⟨parts, _, hu⟩ :=
          upload_multi_parts_done e loc host n hopen hstat hhost hn2 hm hp
        rw [hu, objectKeys_append, objectKeys_append, objectKeys_putAll]
        cases e.completeOk <;> cases e.removeOk <;> simp [objectKeys]

/-- C6: once the file is opened, its size read and the host name `host`
found, the object key used by `upload` for the local path `loc` is `host`,
then "/", then the base name of `loc`; for a path `dir ++ "/" ++ name` whose
`name` is not empty and holds no slash the base name is `name`, so the key is
`host ++ "/" ++ name` whatever `dir` is. -/
theorem upload_remote_key (e : UploadEnv) (loc host : String) (n : Nat)
    (hopen : e.openOk = true) (hstat : e.statSize = some n)
    (hhost : e.hostname = some host) :
    objectKeys (upload e loc).1 = [host ++ "/" ++ pathBase loc] ∧
    (∀ dir name : String, name ≠ "" → '/' ∉ name.data →
      pathBase (dir ++ "/" ++ name) = name ∧
      objectKeys (upload e (dir ++ "/" ++ name)).1 = [host ++ "/" ++ name]) := by
  refine ⟨objectKeys_upload e loc host n hopen hstat hhost, ?_⟩
  intro dir name hne hslash
  refine ⟨pathBase_dir_name dir name hne hslash, ?_⟩
  rw [objectKeys_upload e _ host n hopen hstat hhost, remoteKey,
    pathBase_dir_name dir name hne hslash]

/-- C6, for the trace file "/tmp/rc_sysdig_1" on host "web1", and for the same
file name under "/var/tmp". -/
theorem upload_remote_key_witness :
    (okEnv 4194304).openOk = true ∧ (okEnv 4194304).statSize = some 4194304 ∧
    (okEnv 4194304).hostname = some "web1" ∧
    objectKeys (upload (okEnv 4194304) "/tmp/rc_sysdig_1").1 =
      ["web1" ++ "/" ++ pathBase "/tmp/rc_sysdig_1"] ∧
    pathBase "/tmp/rc_sysdig_1" = "rc_sysdig_1" ∧
    ("rc_sysdig_1" ≠ "" ∧ '/' ∉ "rc_sysdig_1".data ∧
      objectKeys (upload (okEnv 4194304) ("/var/tmp" ++ "/" ++ "rc_sysdig_1")).1 =
        ["web1" ++ "/" ++ "rc_sysdig_1"]) :=
  ⟨rfl, rfl, rfl,
    (upload_remote_key (okEnv 4194304) "/tmp/rc_sysdig_1" "web1" 4194304 rfl rfl rfl).1,
    by decide, by decide, by decide,
    ((upload_remote_key (okEnv 4194304) "/tmp/rc_sysdig_1" "web1" 4194304 rfl rfl rfl).2
      "/var/tmp" "rc_sysdig_1" (by decide) (by decide)).2⟩

/-! ## The capture supervisor -/

/-- C4: in every run of `runSysdig`, an emitted artifact path comes after the
observation of the exit of the capture process (the receive on `done`); a run
that ends with the path emitted contains both, the path being the last
effect; the interrupt signal is sent only after the timer of `opts.timeout`
has fired; and when the timer fires first (temp file created, process
started) the signal is sent, before any receive on `done`. -/
theorem runSysdig_exit_observed_before_emit (env : SysdigEnv) (opts : roadcrewOptions) :
    precededBy isRecvDone isEmit (runSysdig env opts).1 = true ∧
    ((runSysdig env opts).1.any isEmit = true →
      (runSysdig env opts).1.any isRecvDone = true ∧
      (runSysdig env opts).2 = SEnding.emitted) ∧
    precededBy (isTimerFired opts.timeout) isSignal (runSysdig env opts).1 = true ∧
    (env.exitsFirst = none → env.startOk = true →
      (env.tempFile opts.tmpDir "rc_sysdig_").isSome = true →
      (runSysdig env opts).1.any isSignal = true ∧
      precededBy isSignal isRecvDone (runSysdig env opts).1 = true) := by
  unfold runSysdig
  cases env.tempFile opts.tmpDir "rc_sysdig_" with
  | none => simp [precededBy, isRecvDone, isEmit, isSignal, isTimerFired]
  | some name =>
    cases env.startOk with
    | false => simp [precededBy, isRecvDone, isEmit, isSignal, isTimerFired]
    | true =>
      cases env.exitsFirst with
      | some err =>
        cases err <;> simp [precededBy, isRecvDone, isEmit, isSignal, isTimerFired]
      | none =>
        cases env.signalOk with
        | false => simp [precededBy, isRecvDone, isEmit, isSignal, isTimerFired]
        | true =>
          cases env.exitAfterSignal with
          | none => simp [precededBy, isRecvDone, isEmit, isSignal, isTimerFired]
          | some err => simp [precededBy, isRecvDone, isEmit, isSignal, isTimerFired]

/-- C4, on a capture that runs until the deadline of 30 ticks and exits on
the interrupt: timer, signal, observed exit, emitted path, in this order. -/
theorem runSysdig_exit_observed_before_emit_witness :
    (runSysdig deadlineEnv sampleOpts).1 =
      [SEvent.tempFile "/tmp" "rc_sysdig_", SEvent.start ["sysdig", "-qw", "/tmp/rc_sysdig_1"],
        SEvent.spawnWait, SEvent.timerStart 30, SEvent.timerFired 30, SEvent.signalInterrupt,
        SEvent.recvDone true, SEvent.emit "/tmp/rc_sysdig_1"] ∧
    (runSysdig deadlineEnv sampleOpts).1.any isEmit = true ∧
    deadlineEnv.exitsFirst = none ∧
    ((runSysdig deadlineEnv sampleOpts).1.any isRecvDone = true ∧
      (runSysdig deadlineEnv sampleOpts).2 = SEnding.emitted) ∧
    ((runSysdig deadlineEnv sampleOpts).1.any isSignal = true ∧
      precededBy isSignal isRecvDone (runSysdig deadlineEnv sampleOpts).1 = true) :=
  ⟨by decide, by decide, rfl,
    (runSysdig_exit_observed_before_emit deadlineEnv sampleOpts).2.1 (by decide),
    (runSysdig_exit_observed_before_emit deadlineEnv sampleOpts).2.2.2 rfl rfl (by decide)⟩

/-- C8 as stated fails: when the deadline elapses, the signal is delivered
and the capture process never exits, no path is emitted (as the claim says)
but the pipeline does not terminate either: `runSysdig` stays blocked on
`<-done`. -/
theorem runSysdig_blocked_not_fatal :
    (hangEnv.tempFile sampleOpts.tmpDir "rc_sysdig_").isSome = true ∧
    hangEnv.startOk = true ∧
    ¬ (hangEnv.exitsFirst = some false ∨
        (hangEnv.exitsFirst = none ∧ hangEnv.signalOk = true ∧
          hangEnv.exitAfterSignal.isSome = true)) ∧
    (runSysdig hangEnv sampleOpts).1.any isEmit = false ∧
    (runSysdig hangEnv sampleOpts).2 ≠ SEnding.fatal ∧
    (runSysdig hangEnv sampleOpts).2 = SEnding.blocked := by
  decide

/-- C8, amended: `runSysdig` emits an artifact path exactly when the temp file
was created, the process started, and either the process exited before the
deadline with no error, or the deadline elapsed, the signal was delivered
without error and the exit of the process was then observed, whatever its
status.  It ends in `log.Fatal` exactly on a temp-file error, a start error,
an early exit with an error, or a signal error.  In the one remaining case,
the process never exiting after a delivered signal, it stays blocked.  No path
is emitted unless the run ends with the path emitted. -/
theorem runSysdig_emits_iff (env : SysdigEnv) (opts : roadcrewOptions) :
    ((runSysdig env opts).2 = SEnding.emitted ↔
      ((env.tempFile opts.tmpDir "rc_sysdig_").isSome = true ∧ env.startOk = true ∧
        (env.exitsFirst = some false ∨
          (env.exitsFirst = none ∧ env.signalOk = true ∧
            env.exitAfterSignal.isSome = true)))) ∧
    ((runSysdig env opts).2 = SEnding.fatal ↔
      (env.tempFile opts.tmpDir "rc_sysdig_" = none ∨
        ((env.tempFile opts.tmpDir "rc_sysdig_").isSome = true ∧ env.startOk = false) ∨
        ((env.tempFile opts.tmpDir "rc_sysdig_").isSome = true ∧ env.startOk = true ∧
          env.exitsFirst = some true) ∨
        ((env.tempFile opts.tmpDir "rc_sysdig_").isSome = true ∧ env.startOk = true ∧
          env.exitsFirst = none ∧ env.signalOk = false))) ∧
    ((runSysdig env opts).2 = SEnding.blocked ↔
      ((env.tempFile opts.tmpDir "rc_sysdig_").isSome = true ∧ env.startOk = true ∧
        env.exitsFirst = none ∧ env.signalOk = true ∧ env.exitAfterSignal = none)) ∧
    ((runSysdig env opts).1.any isEmit = true ↔ (runSysdig env opts).2 = SEnding.emitted) ∧
    (∀ name, env.tempFile opts.tmpDir "rc_sysdig_" = some name →
      (runSysdig env opts).2 = SEnding.emitted →
      (runSysdig env opts).1.filter isEmit = [SEvent.emit name]) := by
  unfold runSysdig
  cases env.tempFile opts.tmpDir "rc_sysdig_" with
  | none => simp [isEmit]
  | some name =>
    cases env.startOk with
    | false => simp [isEmit]
    | true =>
      cases env.exitsFirst with
      | some err => cases err <;> simp [isEmit]
      | none =>
        cases env.signalOk with
        | false => simp [isEmit]
        | true =>
          cases env.exitAfterSignal with
          | none => simp [isEmit]
          | some err => simp [isEmit]

/-- C8 amended, on a capture that exits early without error: the path of the
temp file is emitted. -/
theorem runSysdig_emits_iff_witness :
    earlyExitEnv.tempFile sampleOpts.tmpDir "rc_sysdig_" = some "/tmp/rc_sysdig_1" ∧
    (runSysdig earlyExitEnv sampleOpts).2 = SEnding.emitted ∧
    (runSysdig earlyExitEnv sampleOpts).1.filter isEmit = [SEvent.emit "/tmp/rc_sysdig_1"] :=
  ⟨by decide, by decide,
    (runSysdig_emits_iff earlyExitEnv sampleOpts).2.2.2.2 "/tmp/rc_sysdig_1" (by decide)
      (by decide)⟩

/-! ## The handler of a finished trace file -/

theorem selectBody_flags (st st1 : HState) (ev : HSelect) (h : selectBody st ev = some st1) :
    (st.uploadFinished = true → st1.uploadFinished = true) ∧
    (st.statsFinished = true → st1.statsFinished = true) ∧
    (st1.uploadFinished ≠ st.uploadFinished → ev = HSelect.uploadDone) ∧
    (st1.statsFinished ≠ st.statsFinished → ev = HSelect.statsDone) := by
  cases ev <;> simp [selectBody] at h <;> subst h <;> simp

theorem handleLoop_returned :
    ∀ (evs : List HSelect) (st : HState), (handleLoop evs st).1 = HEnding.returned →
      (handleLoop evs st).2.uploadFinished = true ∧
      (handleLoop evs st).2.statsFinished = true := by
  intro evs
  induction evs with
  | nil =>
    intro st h
    rcases st with ⟨a, b⟩
    cases a <;> cases b <;> simp [handleLoop] at h ⊢
  | cons ev rest ih =>
    intro st h
    rcases st with ⟨a, b⟩
    cases a <;> cases b <;> cases ev <;> simp [handleLoop, selectBody] at h ⊢ <;>
      exact ih _ h

theorem handleLoop_fatal :
    ∀ (evs : List HSelect) (st : HState), (handleLoop evs st).1 = HEnding.fatal →
      HSelect.timeout ∈ evs := by
  intro evs
  induction evs with
  | nil =>
    intro st h
    rcases st with ⟨a, b⟩
    cases a <;> cases b <;> simp [handleLoop] at h
  | cons ev rest ih =>
    intro st h
    rcases st with ⟨a, b⟩
    cases a <;> cases b <;> cases ev <;> simp [handleLoop, selectBody] at h ⊢ <;>
      exact ih _ h

theorem handleLoop_waiting :
    ∀ (evs : List HSelect) (st : HState), (handleLoop evs st).1 = HEnding.waiting →
      HSelect.timeout ∉ evs ∧
      ((handleLoop evs st).2.uploadFinished = false ∨
        (handleLoop evs st).2.statsFinished = false) := by
  intro evs
  induction evs with
  | nil =>
    intro st h
    rcases st with ⟨a, b⟩
    cases a <;> cases b <;> simp [handleLoop] at h ⊢
  | cons ev rest ih =>
    intro st h
    rcases st with ⟨a, b⟩
    cases a <;> cases b <;> cases ev <;> simp [handleLoop, selectBody] at h ⊢ <;>
      exact ih _ h

theorem handleLoop_returns :
    ∀ (evs : List HSelect) (st : HState), HSelect.timeout ∉ evs →
      (st.uploadFinished = true ∨ HSelect.uploadDone ∈ evs) →
      (st.statsFinished = true ∨ HSelect.statsDone ∈ evs) →
      (handleLoop evs st).1 = HEnding.returned := by
  intro evs
  induction evs with
  | nil =>
    intro st _ hu hs
    rcases st with ⟨a, b⟩
    cases a <;> cases b <;> simp [handleLoop] at hu hs ⊢
  | cons ev rest ih =>
    intro st ht hu hs
    rcases st with ⟨a, b⟩
    have ht2 : HSelect.timeout ∉ rest := fun h => ht (List.mem_cons_of_mem _ h)
    cases a <;> cases b <;> cases ev <;>
      simp [handleLoop, selectBody] at ht hu hs ⊢ <;>
      exact ih _ ht2 (by simp [hu]) (by simp [hs])

theorem handleStates_chain :
    ∀ (evs : List HSelect) (st : HState),
      List.Chain' (fun a b : HState =>
          (a.uploadFinished = true → b.uploadFinished = true) ∧
          (a.statsFinished = true → b.statsFinished = true))
        (handleStates evs st) ∧
      (handleStates evs st).head? = some st := by
  intro evs
  induction evs with
  | nil => intro st; simp [handleStates]
  | cons ev rest ih =>
    intro st
    unfold handleStates
    by_cases hc : (st.uploadFinished == false || st.statsFinished == false) = true
    · rw [if_pos hc]
      cases hb : selectBody st ev with
      | none => simp
      | some st1 =>
        obtain ⟨h1, h2⟩ := ih st1
        refine ⟨?_, by simp⟩
        simp only []
        rw [List.chain'_cons']
        refine ⟨?_, h1⟩
        intro y hy
        rw [h2] at hy
        simp at hy
        subst hy
        exact ⟨(selectBody_flags st _ ev hb).1, (selectBody_flags st _ ev hb).2.1⟩
    · rw [if_neg hc]
      simp

theorem handleStates_getLast :
    ∀ (evs : List HSelect) (st : HState),
      (handleStates evs st).getLast? = some (handleLoop evs st).2 := by
  intro evs
  induction evs with
  | nil =>
    intro st
    rcases st with ⟨a, b⟩
    cases a <;> cases b <;> simp [handleStates, handleLoop]
  | cons ev rest ih =>
    intro st
    unfold handleStates handleLoop
    by_cases hc : (st.uploadFinished == false || st.statsFinished == false) = true
    · rw [if_pos hc, if_pos hc]
      cases hb : selectBody st ev with
      | none => simp
      | some st1 =>
        simp only []
        have h1 := ih st1
        have h2 := (handleStates_chain rest st1).2
        cases hl : handleStates rest st1 with
        | nil => rw [hl] at h2; simp at h2
        | cons x xs =>
          rw [hl] at h1
          rw [List.getLast?_cons_cons]
          exact h1
    · rw [if_neg hc, if_neg hc]
      simp

/-- C9: `handleTraceFile` returns only with both flags true.  Both flags
start false, and the states of the loop end in the state the function ends
with; the body of the `select` sets a flag only on the completion
signal of that handler and never resets one, so the flags only grow along the
states of the loop; while a flag is false the loop goes on with the next
`select` (it does not return); the loop ends otherwise only in the timeout
branch (`log.Fatal`); and when both signals arrive and no timeout fires, it
does return. -/
theorem handleTraceFile_closes_only_when_both_done (evs : List HSelect) :
    (handleStates evs { uploadFinished := false, statsFinished := false }).head? =
      some { uploadFinished := false, statsFinished := false } ∧
    (handleStates evs { uploadFinished := false, statsFinished := false }).getLast? =
      some (handleTraceFile evs).2 ∧
    ((handleTraceFile evs).1 = HEnding.returned →
      (handleTraceFile evs).2 = { uploadFinished := true, statsFinished := true }) ∧
    (∀ (st st1 : HState) (ev : HSelect), selectBody st ev = some st1 →
      (st.uploadFinished = true → st1.uploadFinished = true) ∧
      (st.statsFinished = true → st1.statsFinished = true) ∧
      (st1.uploadFinished ≠ st.uploadFinished → ev = HSelect.uploadDone) ∧
      (st1.statsFinished ≠ st.statsFinished → ev = HSelect.statsDone)) ∧
    List.Chain' (fun a b : HState =>
        (a.uploadFinished = true → b.uploadFinished = true) ∧
        (a.statsFinished = true → b.statsFinished = true))
      (handleStates evs { uploadFinished := false, statsFinished := false }) ∧
    (∀ (st : HState) (ev : HSelect) (rest : List HSelect),
      (st.uploadFinished = false ∨ st.statsFinished = false) →
      handleLoop (ev :: rest) st =
        (match selectBody st ev with
          | none => (HEnding.fatal, st)
          | some st1 => handleLoop rest st1)) ∧
    ((handleTraceFile evs).1 = HEnding.fatal → HSelect.timeout ∈ evs) ∧
    ((handleTraceFile evs).1 = HEnding.waiting →
      HSelect.timeout ∉ evs ∧
      ((handleTraceFile evs).2.uploadFinished = false ∨
        (handleTraceFile evs).2.statsFinished = false)) ∧
    (HSelect.timeout ∉ evs → HSelect.uploadDone ∈ evs → HSelect.statsDone ∈ evs →
      (handleTraceFile evs).1 = HEnding.returned) := by
  refine ⟨(handleStates_chain evs _).2, handleStates_getLast evs _, ?_, selectBody_flags,
    (handleStates_chain evs _).1,
    ?_, handleLoop_fatal evs _, handleLoop_waiting evs _, ?_⟩
  · intro h
    obtain ⟨h1, h2⟩ := handleLoop_returned evs _ h
    rcases hr : (handleTraceFile evs).2 with ⟨a, b⟩
    unfold handleTraceFile at hr
    rw [hr] at h1 h2
    simp at h1 h2
    rw [h1, h2]
  · intro st ev rest hor
    rcases st with ⟨a, b⟩
    cases a <;> cases b <;> simp at hor <;> simp [handleLoop]
  · intro ht hu hs
    exact handleLoop_returns evs _ ht (Or.inr hu) (Or.inr hs)

/-- C9, on the two orders of arrival of the completion signals, and on a
timeout after the first signal. -/
theorem handleTraceFile_closes_only_when_both_done_witness :
    ((handleTraceFile [HSelect.statsDone, HSelect.uploadDone]).1 = HEnding.returned ∧
      (handleTraceFile [HSelect.statsDone, HSelect.uploadDone]).2 =
        { uploadFinished := true, statsFinished := true }) ∧
    (handleTraceFile [HSelect.uploadDone, HSelect.statsDone]).1 = HEnding.returned ∧
    ((handleTraceFile [HSelect.uploadDone, HSelect.timeout]).1 = HEnding.fatal ∧
      HSelect.timeout ∈ [HSelect.uploadDone, HSelect.timeout]) :=
  ⟨⟨by decide,
      (handleTraceFile_closes_only_when_both_done
        [HSelect.statsDone, HSelect.uploadDone]).2.2.1 (by decide)⟩,
    (handleTraceFile_closes_only_when_both_done
      [HSelect.uploadDone, HSelect.statsDone]).2.2.2.2.2.2.2.2 (by decide) (by decide)
      (by decide),
    ⟨by decide,
      (handleTraceFile_closes_only_when_both_done
        [HSelect.uploadDone, HSelect.timeout]).2.2.2.2.2.2.1 (by decide)⟩⟩

/-- C5 as stated fails: with deadline 10, upload done at 6 and stats done at
12 after dispatch, `max 6 12 > 10` and yet `handleTraceFile` closes the cycle
normally at time 12, whichever way ties are resolved: the timer is created
anew each time the `select` is entered. -/
theorem handleTraceFile_deadline_not_total :
    10 < max 6 12 ∧
    handleTraceFileTimed 10 6 12 false false = (HEnding.returned, 12) ∧
    handleTraceFileTimed 10 6 12 false true = (HEnding.returned, 12) ∧
    handleTraceFileTimed 10 6 12 true false = (HEnding.returned, 12) ∧
    handleTraceFileTimed 10 6 12 true true = (HEnding.returned, 12) := by
  decide

theorem timed_upload_pending (T u s : Nat) (b1 b2 : Bool) (f t0 : Nat) :
    handleTimedLoop T u s b1 b2 (f + 2) t0 { uploadFinished := false, statsFinished := true } =
      if timerBeats T t0 (max u t0) b1 = true then (HEnding.fatal, t0 + T)
      else (HEnding.returned, max u t0) := by
  cases h : timerBeats T t0 (max u t0) b1 with
  | true =>
    have hn : nextSelect T u s b1 b2 t0 { uploadFinished := false, statsFinished := true } =
        (HSelect.timeout, t0 + T) := by simp [nextSelect, h]
    rw [handleTimedLoop, hn]
    simp [selectBody]
  | false =>
    have hn : nextSelect T u s b1 b2 t0 { uploadFinished := false, statsFinished := true } =
        (HSelect.uploadDone, max u t0) := by simp [nextSelect, h]
    rw [handleTimedLoop, hn]
    simp [selectBody, handleTimedLoop]

theorem timed_stats_pending (T u s : Nat) (b1 b2 : Bool) (f t0 : Nat) :
    handleTimedLoop T u s b1 b2 (f + 2) t0 { uploadFinished := true, statsFinished := false } =
      if timerBeats T t0 (max s t0) b1 = true then (HEnding.fatal, t0 + T)
      else (HEnding.returned, max s t0) := by
  cases h : timerBeats T t0 (max s t0) b1 with
  | true =>
    have hn : nextSelect T u s b1 b2 t0 { uploadFinished := true, statsFinished := false } =
        (HSelect.timeout, t0 + T) := by simp [nextSelect, h]
    rw [handleTimedLoop, hn]
    simp [selectBody]
  | false =>
    have hn : nextSelect T u s b1 b2 t0 { uploadFinished := true, statsFinished := false } =
        (HSelect.statsDone, max s t0) := by simp [nextSelect, h]
    rw [handleTimedLoop, hn]
    simp [selectBody, handleTimedLoop]

theorem timed_both_pending (T u s : Nat) (b1 b2 : Bool) :
    handleTraceFileTimed T u s b1 b2 =
      if uploadBeatsStats u s 0 b2 = true then
        if timerBeats T 0 u b1 = true then (HEnding.fatal, T)
        else
          if timerBeats T u (max s u) b1 = true then (HEnding.fatal, u + T)
          else (HEnding.returned, max s u)
      else
        if timerBeats T 0 s b1 = true then (HEnding.fatal, T)
        else
          if timerBeats T s (max u s) b1 = true then (HEnding.fatal, s + T)
          else (HEnding.returned, max u s) := by
  unfold handleTraceFileTimed
  cases h1 : uploadBeatsStats u s 0 b2 with
  | true =>
    cases h2 : timerBeats T 0 u b1 with
    | true =>
      have hn : nextSelect T u s b1 b2 0 { uploadFinished := false, statsFinished := false } =
          (HSelect.timeout, T) := by simp [nextSelect, h1, h2]
      rw [handleTimedLoop, hn]
      simp [selectBody]
    | false =>
      have hn : nextSelect T u s b1 b2 0 { uploadFinished := false, statsFinished := false } =
          (HSelect.uploadDone, u) := by simp [nextSelect, h1, h2]
      rw [handleTimedLoop, hn]
      simp only [selectBody]
      have := timed_stats_pending T u s b1 b2 0 u
      simp at this ⊢
      rw [this]
  | false =>
    cases h2 : timerBeats T 0 s b1 with
    | true =>
      have hn : nextSelect T u s b1 b2 0 { uploadFinished := false, statsFinished := false } =
          (HSelect.timeout, T) := by simp [nextSelect, h1, h2]
      rw [handleTimedLoop, hn]
      simp [selectBody]
    | false =>
      have hn : nextSelect T u s b1 b2 0 { uploadFinished := false, statsFinished := false } =
          (HSelect.statsDone, s) := by simp [nextSelect, h1, h2]
      rw [handleTimedLoop, hn]
      simp only [selectBody]
      have := timed_upload_pending T u s b1 b2 0 s
      simp at this ⊢
      rw [this]

theorem timerBeats_spec (T t0 t : Nat) (b : Bool) :
    (timerBeats T t0 t b = true → t0 + T ≤ t) ∧ (timerBeats T t0 t b = false → t ≤ t0 + T) := by
  unfold timerBeats
  cases b <;> simp <;> omega

theorem uploadBeatsStats_spec (u s t0 : Nat) (b : Bool) :
    (uploadBeatsStats u s t0 b = true → max u t0 ≤ max s t0) ∧
    (uploadBeatsStats u s t0 b = false → max s t0 ≤ max u t0) := by
  unfold uploadBeatsStats
  cases b <;> simp <;> omega

/-- C5, amended: the deadline `T` bounds each wait of `handleTraceFile`
between two signals, not the whole wait.  With the first signal at
`min u s` and the second at `max u s` after dispatch: the cycle closes
normally, at time `max u s`, when the first signal comes before `T` and the
second less than `T` after the first; it is fatal at time `T` when no signal
comes up to `T`, and fatal at time `min u s + T` when the second signal comes
more than `T` after the first.  The loop always ends, and a cycle that closes
normally has waited at most `2 * T` in total. -/
theorem handleTraceFile_deadline_per_wait (T u s : Nat) (timerWinsTie uploadWinsTie : Bool) :
    (min u s < T → max u s - min u s < T →
      handleTraceFileTimed T u s timerWinsTie uploadWinsTie = (HEnding.returned, max u s)) ∧
    (T < min u s →
      handleTraceFileTimed T u s timerWinsTie uploadWinsTie = (HEnding.fatal, T)) ∧
    (min u s < T → T < max u s - min u s →
      handleTraceFileTimed T u s timerWinsTie uploadWinsTie =
        (HEnding.fatal, min u s + T)) ∧
    (handleTraceFileTimed T u s timerWinsTie uploadWinsTie).1 ≠ HEnding.waiting ∧
    ((handleTraceFileTimed T u s timerWinsTie uploadWinsTie).1 = HEnding.returned →
      (handleTraceFileTimed T u s timerWinsTie uploadWinsTie).2 = max u s ∧
      min u s ≤ T ∧ max u s - min u s ≤ T ∧ max u s ≤ 2 * T) := by
  rw [timed_both_pending]
  have a1 := uploadBeatsStats_spec u s 0 uploadWinsTie
  have a2 := timerBeats_spec T 0 u timerWinsTie
  have a3 := timerBeats_spec T 0 s timerWinsTie
  have a4 := timerBeats_spec T u (max s u) timerWinsTie
  have a5 := timerBeats_spec T s (max u s) timerWinsTie
  cases h1 : uploadBeatsStats u s 0 uploadWinsTie
  · rw [h1] at a1
    cases h3 : timerBeats T 0 s timerWinsTie <;>
      cases h5 : timerBeats T s (max u s) timerWinsTie <;>
      rw [h3] at a3 <;> rw [h5] at a5 <;>
      simp only [Bool.false_eq_true, if_false, if_true, true_implies, false_implies,
        and_true, true_and, Nat.max_zero, Prod.mk.injEq, reduceCtorEq, false_and,
        ne_eq, not_false_eq_true, not_true_eq_false, imp_false, implies_true] at a1 a3 a5 ⊢ <;>
      omega
  · rw [h1] at a1
    cases h2 : timerBeats T 0 u timerWinsTie <;>
      cases h4 : timerBeats T u (max s u) timerWinsTie <;>
      rw [h2] at a2 <;> rw [h4] at a4 <;>
      simp only [Bool.false_eq_true, if_false, if_true, true_implies, false_implies,
        and_true, true_and, Nat.max_zero, Prod.mk.injEq, reduceCtorEq, false_and,
        ne_eq, not_false_eq_true, not_true_eq_false, imp_false, implies_true] at a1 a2 a4 ⊢ <;>
      omega

/-- C5 amended, with deadline 10: signals at 6 and 12 close the cycle at 12,
signals at 6 and 17 are fatal at 16, signals at 11 and 12 are fatal at 10. -/
theorem handleTraceFile_deadline_per_wait_witness :
    (min 6 12 < 10 ∧ max 6 12 - min 6 12 < 10 ∧
      handleTraceFileTimed 10 6 12 true true = (HEnding.returned, max 6 12)) ∧
    (min 6 17 < 10 ∧ 10 < max 6 17 - min 6 17 ∧
      handleTraceFileTimed 10 6 17 true true = (HEnding.fatal, min 6 17 + 10)) ∧
    (10 < min 11 12 ∧ handleTraceFileTimed 10 11 12 true true = (HEnding.fatal, 10)) :=
  ⟨⟨by decide, by decide,
      (handleTraceFile_deadline_per_wait 10 6 12 true true).1 (by decide) (by decide)⟩,
    ⟨by decide, by decide,
      (handleTraceFile_deadline_per_wait 10 6 17 true true).2.2.1 (by decide) (by decide)⟩,
    ⟨by decide, (handleTraceFile_deadline_per_wait 10 11 12 true true).2.1 (by decide)⟩⟩

/-! ## The coordinator -/

theorem coordInv_step (c c1 : Coord) (st : CStep) (h : CoordInv c)
    (hs : mainStep c st = some c1) : CoordInv c1 := by
  rcases c with ⟨pc, oc, hd, cs, hst, rc⟩
  obtain ⟨hh, hm⟩ := h
  cases st <;> simp only [mainStep] at hs <;> split at hs <;>
    first
      | contradiction
      | (injection hs with hs
         subst hs
         cases pc <;> simp [CoordInv] at * <;> omega)

theorem coordInv_run : ∀ (steps : List CStep) (c c1 : Coord), CoordInv c →
    mainRun c steps = some c1 → CoordInv c1 := by
  intro steps
  induction steps with
  | nil =>
    intro c c1 h hr
    simp [mainRun] at hr
    subst hr
    exact h
  | cons st rest ih =>
    intro c c1 h hr
    unfold mainRun at hr
    cases hst : mainStep c st with
    | none => simp [hst] at hr
    | some c2 =>
      simp [hst] at hr
      exact ih c2 c1 (coordInv_step c c2 st h hst) hr

theorem loopTurns_run : ∀ (k : Nat) (c : Coord), c.pc = MainPc.receiving →
    c.openCaptures = 1 →
    ∃ c1, mainRun c (loopTurns k) = some c1 ∧ c1.handlers = c.handlers + k ∧
      c1.pc = MainPc.receiving ∧ c1.openCaptures = 1 := by
  intro k
  induction k with
  | zero => intro c h1 h2; exact ⟨c, rfl, rfl, h1, h2⟩
  | succ k ih =>
    intro c h1 h2
    rcases c with ⟨pc, oc, hd, cs, hst, rc⟩
    simp at h1 h2
    subst h1
    subst h2
    obtain ⟨c1, hr, hh, hp, ho⟩ := ih
      { pc := MainPc.receiving, openCaptures := 1, handlers := hd + 1,
        capturesStarted := cs + 1, handlersStarted := hst + 1, received := rc + 1 } rfl rfl
    refine ⟨c1, ?_, ?_, hp, ho⟩
    · simp [loopTurns, mainRun, mainStep]
      exact hr
    · rw [hh]
      simp
      omega

/-- C10: in every state the pipeline reaches from the start of `main`, at most
one capture task is open.  One capture is started before the loop; once it is
started, the captures started are one more than the handlers started or two
more (between the two `go` statements of the loop body), so each received path
starts exactly one capture and one handler, the capture first; while `main`
waits at the receive exactly one capture is open and the captures started are
the paths received plus one, the handlers started the paths received.  The
handlers in flight are not bounded: for every `k` a state with `k` handlers in
flight and one open capture is reached. -/
theorem main_at_most_one_open_capture :
    (∀ (steps : List CStep) (c : Coord), mainRun mainInit steps = some c →
      c.openCaptures ≤ 1 ∧
      (c.pc ≠ MainPc.boot →
        c.handlersStarted + 1 ≤ c.capturesStarted ∧
        c.capturesStarted ≤ c.handlersStarted + 2) ∧
      (c.pc = MainPc.receiving →
        c.openCaptures = 1 ∧ c.capturesStarted = c.received + 1 ∧
        c.handlersStarted = c.received) ∧
      (c.pc = MainPc.launching → c.openCaptures = 0) ∧
      c.handlers ≤ c.handlersStarted) ∧
    mainRun mainInit [CStep.goFirstCapture] =
      some { pc := MainPc.receiving, openCaptures := 1, handlers := 0,
             capturesStarted := 1, handlersStarted := 0, received := 0 } ∧
    (∀ c : Coord, c.pc = MainPc.receiving → c.openCaptures = 1 →
      mainRun c [CStep.receive, CStep.goCapture, CStep.goHandler] =
        some { pc := MainPc.receiving, openCaptures := 1, handlers := c.handlers + 1,
               capturesStarted := c.capturesStarted + 1,
               handlersStarted := c.handlersStarted + 1, received := c.received + 1 } ∧
      mainRun c [CStep.receive, CStep.goHandler] = none) ∧
    (∀ k : Nat, ∃ (steps : List CStep) (c : Coord), mainRun mainInit steps = some c ∧
      c.handlers = k ∧ c.openCaptures = 1) := by
  refine ⟨?_, by decide, ?_, ?_⟩
  · intro steps c hr
    have hinv : CoordInv mainInit := by simp [CoordInv, mainInit]
    have h := coordInv_run steps mainInit c hinv hr
    rcases c with ⟨pc, oc, hd, cs, hst, rc⟩
    unfold CoordInv at h
    cases pc <;> simp at h ⊢ <;> omega
  · intro c h1 h2
    rcases c with ⟨pc, oc, hd, cs, hst, rc⟩
    simp at h1 h2
    subst h1
    subst h2
    simp [mainRun, mainStep]
  · intro k
    obtain ⟨c1, hr, hh, _, ho⟩ := loopTurns_run k
      { pc := MainPc.receiving, openCaptures := 1, handlers := 0,
        capturesStarted := 1, handlersStarted := 0, received := 0 } rfl rfl
    refine ⟨CStep.goFirstCapture :: loopTurns k, c1, ?_, ?_, ho⟩
    · simp [mainRun, mainStep, mainInit]
      exact hr
    · simpa using hh

/-- C10, after the first capture and two turns of the loop during which no
handler returns: one open capture, two handlers in flight. -/
theorem main_at_most_one_open_capture_witness :
    mainRun mainInit (CStep.goFirstCapture :: loopTurns 2) =
      some { pc := MainPc.receiving, openCaptures := 1, handlers := 2,
             capturesStarted := 3, handlersStarted := 2, received := 2 } ∧
    (1 : Nat) ≤ 1 ∧ (3 : Nat) = 2 + 1 :=
  ⟨by decide,
    (main_at_most_one_open_capture.1 (CStep.goFirstCapture :: loopTurns 2)
      { pc := MainPc.receiving, openCaptures := 1, handlers := 2,
        capturesStarted := 3, handlersStarted := 2, received := 2 } (by decide)).1,
    ((main_at_most_one_open_capture.1 (CStep.goFirstCapture :: loopTurns 2)
      { pc := MainPc.receiving, openCaptures := 1, handlers := 2,
        capturesStarted := 3, handlersStarted := 2, received := 2 }
      (by decide)).2.2.1 rfl).2.1⟩

/-! ## The options -/

theorem docoptParse_tmp_dir (cl : CommandLine) : docoptParse cl "--tmp_dir" = none := by
  simp [docoptParse]

/-- Whatever the command line, options returned by `setupOptions` have the
temporary directory "/tmp". -/
theorem setupOptions_tmpDir (env : SetupEnv) (cl : CommandLine) (opts : roadcrewOptions)
    (h : setupOptions env (some (docoptParse cl)) = SetupResult.ok opts) :
    opts.tmpDir = "/tmp" := by
  unfold setupOptions at h
  simp only [docoptParse_tmp_dir] at h
  split at h <;> try contradiction
  split at h <;> try contradiction
  split at h <;> try contradiction
  split at h <;> try contradiction
  split at h <;> try contradiction
  split at h <;> try contradiction
  split at h <;> try contradiction
  injection h with h
  rw [← h]

/-- C7 fails on the code: for the command line
`roadcrew -t /var/tmp -i 60 -b traces` on a host where every check passes,
`setupOptions` returns options whose temporary directory is "/tmp", not the
supplied "/var/tmp": the value of `-t` is stored under the name `-t`, and
`setupOptions` looks up `--tmp_dir`. -/
theorem setupOptions_ignores_tmp_dir :
    cmdWithTmpDir.tmpDir = some "/var/tmp" ∧
    docoptParse cmdWithTmpDir "-t" = some "/var/tmp" ∧
    docoptParse cmdWithTmpDir "--tmp_dir" = none ∧
    setupOptions goodSetupEnv (some (docoptParse cmdWithTmpDir)) =
      SetupResult.ok { auth := ("AAAA", "BBBB"), region := "us-east-1", interval := "60",
                       timeout := 60, bucketName := "traces", tmpDir := "/tmp" } := by
  decide

end Roadcrew
